/-
Verification of the ironhook hook-execution engine (src/subject.ts, the
single-consumer Runner, and the run() wrapper) against its specification.

The engine is embedded shallowly: every method of `Subject` (run, execute,
applyStateChanges, cleanUpEffects, triggerEffects, useState, useEffect,
useMemo, getMemoryCell, subscribe, complete) is translated into an
executable Lean function over an explicit `SubjectState`.  User-supplied
closures that the engine *stores inside memory cells* (effect functions,
cleanup functions, state updaters) are represented as first-order data so
that the state type is well-founded; the main hook itself is never stored
and is modelled as a hook program (`HookProg`) whose continuations are
Lean functions but whose every engine interaction goes through the
primitive operations.  Observable behaviour (value deliveries, error/complete signals,
effect runs, cleanups, console diagnostics, promise resolution) is recorded
in an event trace carried inside the state.
-/
import Mathlib

namespace Ironhook

/-- JavaScript values as far as the engine compares them: `Object.is`
reference identity is modelled by decidable equality on this type.  `obj n`
stands for a reference to the n-th distinct heap object, so two `obj`
values are `Object.is`-equal iff they are the same reference; `nan` is a
single constructor, matching `Object.is(NaN, NaN) = true`. -/
inductive JSValue where
  | undef
  | null
  | nan
  | num (n : Int)
  | str (s : String)
  | obj (id : Nat)
  deriving DecidableEq, Repr

/-- `Object.is` (the engine's sole equality): decidable equality on the
modelled value domain, with `nan = nan` true. -/
def objectIs (a b : JSValue) : Bool := a == b

/-- Error values that can be thrown inside the engine. -/
inductive ErrName where
  | numberOfHookCalls   -- 'The number of hook calls must not change.'
  | orderOfHookCalls    -- 'The order of hook calls must not change.'
  | useEffectOutside    -- 'Please use the separately exported useEffect() function.'
  | useStateOutside     -- 'Please use the separately exported useState() function.'
  | useMemoOutside      -- 'Please use the separately exported useMemo() function.'
  | custom (id : Nat)   -- any user-thrown error
  deriving DecidableEq, Repr

/-- A pending state change: either a replacement value or an updater
function of the previous state (the `isFunction` test in
`applyStateChanges` becomes the pattern match on this type). -/
inductive StateChange where
  | val (v : JSValue)
  | updater (f : JSValue → JSValue)

/-- A stored cleanup function: in the model a cleanup either returns
normally or throws the given error. -/
structure CleanUpFn where
  err : Option ErrName
  deriving Repr

/-- A stored effect function: when triggered it performs the recorded
`setState` calls (cell index paired with the change) in order, then either
throws or returns an optional cleanup function.  This first-order
representation of the closure is what an effect cell stores. -/
structure EffectFn where
  calls : List (Nat × StateChange)
  throws : Option ErrName
  cleanup : Option CleanUpFn

/-- Memory cells: the tagged variant stored in `Subject.memory`
(`isKindOf` becomes the constructor match). -/
inductive MemoryCell where
  | effectCell (outdated : Bool) (effect : EffectFn)
      (dependencies : Option (List JSValue)) (cleanUpEffect : Option CleanUpFn)
  | stateCell (state : JSValue) (stateChanges : List StateChange)
  | memoCell (value : JSValue) (dependencies : List JSValue)

/-- The kind tag of a memory cell. -/
inductive CellKind where
  | effectK | stateK | memoK
  deriving DecidableEq, Repr

def MemoryCell.kind : MemoryCell → CellKind
  | .effectCell _ _ _ _ => .effectK
  | .stateCell _ _ => .stateK
  | .memoCell _ _ => .memoK

/-- Modelled from the spec: the implementation of the
`areHookInputsEqual` utility is not part of the provided sources (only
the places importing it are).  Per the spec, dependency lists are compared
element-wise under the `Object.is`-style identity rule, absence of either
list means "not equal" (an absent dependency list re-runs the effect on
every invocation). -/
def areHookInputsEqual : Option (List JSValue) → Option (List JSValue) → Bool
  | some xs, some ys =>
      xs.length == ys.length && (List.zip xs ys).all fun p => objectIs p.1 p.2
  | _, _ => false

/-- Observable events, in chronological order in the trace. -/
inductive Event where
  | next (obs : Nat) (v : JSValue)        -- observer.next(value)
  | errorSig (obs : Nat) (e : ErrName)    -- observer.error(error)
  | completeSig (obs : Nat)               -- observer.complete()
  | cleanUpRun (cell : Nat)               -- a stored cleanup function was invoked
  | consoleErr (cell : Nat)               -- console.error('Error while cleaning up effect.', …)
  | effectRun (cell : Nat)                -- an effect function was invoked
  | memoComputed (cell : Nat)             -- a memo thunk was invoked
  | executed (v : JSValue)                -- the main hook body ran and returned v
  | resolveCompletion                     -- the completion promise was resolved
  | onResult (v : JSValue)                -- Runner listener.onResult(result)
  | onStopped (e : Option ErrName)        -- Runner listener.onStopped(error?)
  deriving DecidableEq, Repr

/-- The multicast `Subject` instance state.  `observers` is
`Set<Observer> | undefined` (observer identities in insertion order);
`completion` models the completion promise: `none` pending, `some none`
resolved, `some (some e)` rejected with `e`.  `tasks` counts microtasks
scheduled by `run()` that have not yet fired; `active` is the
`Subject.active === this` marker. -/
structure SubjectState where
  memory : List MemoryCell
  observers : Option (List Nat)
  completion : Option (Option ErrName)
  memoryAllocated : Bool
  memoryPointer : Nat
  active : Bool
  tasks : Nat
  trace : List Event

/-- Append one event to the trace. -/
def SubjectState.emit (s : SubjectState) (e : Event) : SubjectState :=
  { s with trace := s.trace ++ [e] }

/-- Append several events to the trace. -/
def SubjectState.emitAll (s : SubjectState) (es : List Event) : SubjectState :=
  { s with trace := s.trace ++ es }

/-- Result of an engine computation: JS exceptions propagate while the
(mutated-in-place) state is preserved, exactly as thrown JS exceptions
leave prior mutations in effect. -/
inductive ER (α : Type) where
  | ok (a : α) (s : SubjectState)
  | err (e : ErrName) (s : SubjectState)

/-- The resulting state value of one queued change: a replacement value is
taken as-is, an updater function is applied to the previous state (the
`isFunction` test of `applyStateChanges`). -/
def evalChange : StateChange → JSValue → JSValue
  | .val w, _ => w
  | .updater f, v => f v

/-- `Subject.applyStateChanges`, per state cell: fold the queued changes
over the current state; a change whose resulting value is `Object.is`-equal
to the current state is dropped, otherwise the value is replaced and the
`changed` flag set. -/
def applyChangesToState : JSValue → Bool → List StateChange → JSValue × Bool
  | v, c, [] => (v, c)
  | v, c, ch :: rest =>
      let nv := evalChange ch v
      if objectIs v nv then applyChangesToState v c rest
      else applyChangesToState nv true rest

/-- The per-cell step of `Subject.applyStateChanges` (non-state cells pass
through untouched; a state cell applies and clears its queue). -/
def applyStep (acc : List MemoryCell × Bool) (cell : MemoryCell) :
    List MemoryCell × Bool :=
  match cell with
  | .stateCell v chs =>
      let r := applyChangesToState v acc.2 chs
      (acc.1 ++ [MemoryCell.stateCell r.1 []], r.2)
  | c => (acc.1 ++ [c], acc.2)

/-- `Subject.applyStateChanges`: apply every queued change of every state
cell (clearing each queue), reporting whether any cell's value actually
changed. -/
def applyStateChanges (s : SubjectState) : Bool × SubjectState :=
  let r := s.memory.foldl applyStep ([], false)
  (r.2, { s with memory := r.1 })

/-- The `setState` closure bound to the state cell at index `i`: append the
change to the cell's queue and call `this.run()`, which schedules one more
microtask. -/
def setStateAt (i : Nat) (ch : StateChange) (s : SubjectState) : SubjectState :=
  match s.memory[i]? with
  | some (.stateCell v chs) =>
      { s with memory := s.memory.set i (.stateCell v (chs ++ [ch])),
               tasks := s.tasks + 1 }
  | _ => s

/-- Run the `setState` calls an effect function performs. -/
def runEffectCalls (calls : List (Nat × StateChange)) (s : SubjectState) :
    SubjectState :=
  calls.foldl (fun s p => setStateAt p.1 p.2 s) s

/-- The `for (const memoryCell of this.memory)` loop of
`Subject.cleanUpEffects`, carrying the cell index `i` for the trace: each
effect cell that is outdated (or, when forced, any effect cell) and holds a
stored cleanup invokes it; a throwing cleanup is caught and logged to
console (never rethrown); the stored cleanup reference is cleared either
way; remaining cells are always processed.  Cleanup of one cell never
touches another cell, so the loop is a structural traversal returning the
rewritten cells and the events produced. -/
def cleanUpCells (force : Bool) : Nat → List MemoryCell →
    List MemoryCell × List Event
  | _, [] => ([], [])
  | i, cell :: rest =>
      let r : MemoryCell × List Event :=
        match cell with
        | .effectCell o eff deps (some cu) =>
            if o || force then
              (MemoryCell.effectCell o eff deps none,
               Event.cleanUpRun i ::
                 (match cu.err with
                  | some _ => [Event.consoleErr i]
                  | none => []))
            else (cell, [])
        | c => (c, [])
      let rr := cleanUpCells force (i + 1) rest
      (r.1 :: rr.1, r.2 ++ rr.2)

/-- `Subject.cleanUpEffects(force)`. -/
def cleanUpEffects (force : Bool) (s : SubjectState) : SubjectState :=
  let r := cleanUpCells force 0 s.memory
  { s with memory := r.1, trace := s.trace ++ r.2 }

/-- `Subject.triggerEffects`, iterating from cell `i` with `n` cells left:
each effect cell still flagged outdated clears the flag first, then invokes
its effect function; the returned cleanup (if any) is stored; an error
thrown by the effect propagates (fatal), leaving the previously stored
cleanup reference in place. -/
def triggerEffectsFrom : Nat → Nat → SubjectState → ER Unit
  | _, 0, s => .ok () s
  | i, n + 1, s =>
      match s.memory[i]? with
      | some (.effectCell true eff deps cu) =>
          let s1 := { s with
            memory := s.memory.set i (.effectCell false eff deps cu) }
          let s2 := (s1.emit (.effectRun i)) |> runEffectCalls eff.calls
          match eff.throws with
          | some e => .err e s2
          | none =>
              let s3 := { s2 with
                memory := s2.memory.set i (.effectCell false eff deps eff.cleanup) }
              triggerEffectsFrom (i + 1) n s3
      | _ => triggerEffectsFrom (i + 1) n s

/-- `Subject.triggerEffects`. -/
def triggerEffects (s : SubjectState) : ER Unit :=
  triggerEffectsFrom 0 s.memory.length s

/-- `Subject.getMemoryCell(kind)`: read the cell at the memory pointer; a
missing cell after allocation is a count violation, a present cell of the
wrong kind is an order violation. -/
def getMemoryCell (kind : CellKind) (s : SubjectState) : ER (Option MemoryCell) :=
  match s.memory[s.memoryPointer]? with
  | none => if s.memoryAllocated then .err .numberOfHookCalls s else .ok none s
  | some cell =>
      if cell.kind == kind then .ok (some cell) s else .err .orderOfHookCalls s

/-- A `useState` argument: a plain initial value or a lazy initializer
(the `isFunction` test becomes the pattern match). -/
inductive InitialState where
  | val (v : JSValue)
  | create (v : JSValue)

def InitialState.evalInit : InitialState → JSValue
  | .val v => v
  | .create v => v

/-- `Subject.useEffect(effect, dependencies?)`. -/
def useEffect (eff : EffectFn) (deps : Option (List JSValue)) (s : SubjectState) :
    ER Unit :=
  if !s.active then .err .useEffectOutside s
  else match getMemoryCell .effectK s with
  | .err e s' => .err e s'
  | .ok none s' =>
      let s2 := { s' with memory := s'.memory ++ [MemoryCell.effectCell true eff deps none] }
      .ok () { s2 with memoryPointer := s2.memoryPointer + 1 }
  | .ok (some (.effectCell o _oldEff oldDeps cu)) s' =>
      let s2 :=
        if !areHookInputsEqual oldDeps deps || o then
          { s' with memory :=
              s'.memory.set s'.memoryPointer (.effectCell true eff deps cu) }
        else s'
      .ok () { s2 with memoryPointer := s2.memoryPointer + 1 }
  | .ok (some _) s' => .err .orderOfHookCalls s'

/-- `Subject.useState(initialState)`: returns the cell's current state and
its `setState` handle (the cell index the stable closure is bound to). -/
def useState (initial : InitialState) (s : SubjectState) : ER (JSValue × Nat) :=
  if !s.active then .err .useStateOutside s
  else match getMemoryCell .stateK s with
  | .err e s' => .err e s'
  | .ok none s' =>
      let v := initial.evalInit
      let idx := s'.memoryPointer
      let s2 := { s' with memory := s'.memory ++ [MemoryCell.stateCell v []] }
      .ok (v, idx) { s2 with memoryPointer := idx + 1 }
  | .ok (some (.stateCell v _)) s' =>
      .ok (v, s'.memoryPointer) { s' with memoryPointer := s'.memoryPointer + 1 }
  | .ok (some _) s' => .err .orderOfHookCalls s'

/-- `Subject.useMemo(createValue, dependencies)`: the thunk's result is the
supplied `value`; a `memoComputed` event records each actual invocation of
the thunk. -/
def useMemo (value : JSValue) (deps : List JSValue) (s : SubjectState) :
    ER JSValue :=
  if !s.active then .err .useMemoOutside s
  else match getMemoryCell .memoK s with
  | .err e s' => .err e s'
  | .ok none s' =>
      let s2 := s'.emit (.memoComputed s'.memoryPointer)
      let s3 := { s2 with memory := s2.memory ++ [MemoryCell.memoCell value deps] }
      .ok value { s3 with memoryPointer := s3.memoryPointer + 1 }
  | .ok (some (.memoCell oldV oldDeps)) s' =>
      if !areHookInputsEqual (some oldDeps) (some deps) then
        let s2 := s'.emit (.memoComputed s'.memoryPointer)
        let s3 := { s2 with
          memory := s2.memory.set s2.memoryPointer (MemoryCell.memoCell value deps) }
        .ok value { s3 with memoryPointer := s3.memoryPointer + 1 }
      else
        .ok oldV { s' with memoryPointer := s'.memoryPointer + 1 }
  | .ok (some _) s' => .err .orderOfHookCalls s'

/-- A main-hook body: user code that interacts with the engine only
through the primitive hook calls and the `setState` handles it received.
Continuations are Lean functions (so the body can branch arbitrarily on the
values it reads), but every engine interaction goes through a constructor,
which is what makes engine invariants provable for *every* hook body. -/
inductive HookProg where
  | ret (v : JSValue)
  | useStateBind (init : InitialState) (k : JSValue → Nat → HookProg)
  | useEffectBind (eff : EffectFn) (deps : Option (List JSValue)) (k : HookProg)
  | useMemoBind (value : JSValue) (deps : List JSValue) (k : JSValue → HookProg)
  | setStateBind (cell : Nat) (ch : StateChange) (k : HookProg)
  | throwErr (e : ErrName)

/-- Run a main-hook body against the engine state: each primitive call is
the corresponding `Subject` method; `setStateBind` is a call of a
`setState` handle (which enqueues the change and schedules a run);
exceptions from the primitives propagate out of the body. -/
def runHook : HookProg → SubjectState → ER JSValue
  | .ret v, s => .ok v s
  | .useStateBind init k, s =>
      match useState init s with
      | .err e s' => .err e s'
      | .ok p s' => runHook (k p.1 p.2) s'
  | .useEffectBind eff deps k, s =>
      match useEffect eff deps s with
      | .err e s' => .err e s'
      | .ok _ s' => runHook k s'
  | .useMemoBind value deps k, s =>
      match useMemo value deps s with
      | .err e s' => .err e s'
      | .ok v s' => runHook (k v) s'
  | .setStateBind cell ch k, s => runHook k (setStateAt cell ch s)
  | .throwErr e, s => .err e s

/-- The main hook as stored by the `Subject` constructor. -/
abbrev MainHook := HookProg

/-- `Subject.execute`: skip entirely if the observer set is gone; else mark
this instance active, reset the memory pointer, run the main hook, enforce
the count invariant, mark memory allocated and publish the value to every
observer; the active marker is cleared on every exit path (`finally`). -/
def execute (h : MainHook) (s : SubjectState) : ER Unit :=
  match s.observers with
  | none => .ok () s
  | some _ =>
      let s0 := { s with active := true, memoryPointer := 0 }
      match runHook h s0 with
      | .err e s1 => .err e { s1 with active := false }
      | .ok v s1 =>
          if s1.memoryPointer != s1.memory.length then
            .err .numberOfHookCalls { s1 with active := false }
          else
            let s2 := ({ s1 with memoryAllocated := true }).emit (.executed v)
            let obs := s2.observers.getD []
            let s3 := s2.emitAll (obs.map (fun o => .next o v))
            .ok () { s3 with active := false }

/-- Resolving the completion promise: a promise settles at most once, and
the engine only ever resolves it (with success), never rejects it. -/
def resolveCompletion (s : SubjectState) : SubjectState :=
  match s.completion with
  | none => ({ s with completion := some none }).emit .resolveCompletion
  | some _ => s

/-- The catch handler of `Subject.run`: if the observer set is already
gone, do nothing; else deliver the error to every observer, clear the
observer set, force cleanup of all effects and resolve the completion
promise. -/
def deliverError (e : ErrName) (s : SubjectState) : SubjectState :=
  match s.observers with
  | none => s
  | some obs =>
      let s1 := s.emitAll (obs.map (fun o => .errorSig o e))
      let s2 := { s1 with observers := none }
      resolveCompletion (cleanUpEffects true s2)

/-- `Subject.complete`: if the observer set is already gone, do nothing;
else call every observer's `complete`, clear the observer set, force
cleanup of all effects and resolve the completion promise. -/
def complete (s : SubjectState) : SubjectState :=
  match s.observers with
  | none => s
  | some obs =>
      let s1 := s.emitAll (obs.map (fun o => .completeSig o))
      let s2 := { s1 with observers := none }
      resolveCompletion (cleanUpEffects true s2)

/-- The inner `while (this.applyStateChanges()) this.execute();` loop of
`Subject.run`, with explicit fuel; `none` means the fuel ran out before
the loop terminated. -/
def execLoop : Nat → MainHook → SubjectState → Option (ER Unit)
  | 0, _, _ => none
  | fuel + 1, h, s =>
      let r := applyStateChanges s
      if !r.1 then some (.ok () r.2)
      else match execute h r.2 with
        | .err e s2 => some (.err e s2)
        | .ok _ s2 => execLoop fuel h s2

/-- The outer `do { … } while (this.applyStateChanges());` loop of
`Subject.run`: execute, drain synchronous state changes, clean up and
trigger effects, and repeat while effects produced new changes. -/
def passLoop : Nat → MainHook → SubjectState → Option (ER Unit)
  | 0, _, _ => none
  | fuel + 1, h, s =>
      match execute h s with
      | .err e s1 => some (.err e s1)
      | .ok _ s1 =>
          match execLoop (fuel + 1) h s1 with
          | none => none
          | some (.err e s2) => some (.err e s2)
          | some (.ok _ s2) =>
              let s3 := cleanUpEffects false s2
              match triggerEffects s3 with
              | .err e s4 => some (.err e s4)
              | .ok _ s4 =>
                  let r := applyStateChanges s4
                  if r.1 then passLoop fuel h r.2 else some (.ok () r.2)

/-- The body of the microtask scheduled by `Subject.run` (inside the
`try`): enter the pass loop if memory was never allocated, or if applying
the pending changes reports an actual change. -/
def runTaskCore (fuel : Nat) (h : MainHook) (s : SubjectState) :
    Option (ER Unit) :=
  if !s.memoryAllocated then passLoop fuel h s
  else
    let r := applyStateChanges s
    if r.1 then passLoop fuel h r.2 else some (.ok () r.2)

/-- One microtask of `Subject.run`, including the catch handler. -/
def runTask (fuel : Nat) (h : MainHook) (s : SubjectState) :
    Option SubjectState :=
  match runTaskCore fuel h s with
  | none => none
  | some (.ok _ s') => some s'
  | some (.err e s') => some (deliverError e s')

/-- Drain the microtask queue: fire scheduled run tasks in order until none
are pending (each task may schedule further tasks via `setState`). -/
def drain : Nat → MainHook → SubjectState → Option SubjectState
  | 0, _, s => if s.tasks == 0 then some s else none
  | fuel + 1, h, s =>
      if s.tasks == 0 then some s
      else match runTask (fuel + 1) h { s with tasks := s.tasks - 1 } with
        | none => none
        | some s' => drain fuel h s'

/-- `Subject.subscribe(observer)`: add the observer to the set when the set
still exists (`this.observers?.add`), then schedule a run; the returned
unsubscribe handle is modelled by `unsubscribe`. -/
def subscribe (o : Nat) (s : SubjectState) : SubjectState :=
  let s1 := match s.observers with
    | none => s
    | some l =>
        { s with observers := some (if l.contains o then l else l ++ [o]) }
  { s1 with tasks := s1.tasks + 1 }

/-- The unsubscribe closure returned by `subscribe`:
`() => this.observers?.delete(observer)`. -/
def unsubscribe (o : Nat) (s : SubjectState) : SubjectState :=
  match s.observers with
  | none => s
  | some l => { s with observers := some (l.filter (fun x => x ≠ o)) }

/-- The state of a freshly constructed `Subject`. -/
def initialSubject : SubjectState :=
  { memory := [], observers := some [], completion := none,
    memoryAllocated := false, memoryPointer := 0, active := false,
    tasks := 0, trace := [] }

/-- The state carried by an engine result, in both the normal and the
thrown case (JS mutations survive a throw). -/
def ER.st {α : Type} : ER α → SubjectState
  | .ok _ s => s
  | .err _ s => s

/-! ## The single-consumer `Runner` (part_002)

The `Runner` class duplicates the cell machinery of `Subject`; the pieces
the claims depend on (`stop` and `execute`) are translated here over the
runner's own state.  `stop` schedules its cleanup + `onStopped` signal on a
microtask (`Promise.resolve().then`); since no claim concerns the
interleaving of that microtask with others, the deferred body is modelled
as running at the point the (first) `stop` call makes it inevitable. -/

/-- The single-consumer `Runner` instance state. -/
structure RunnerState where
  memory : List MemoryCell
  memoryAllocated : Bool
  memoryPointer : Nat
  stopped : Bool
  active : Bool
  trace : List Event

def RunnerState.emit (s : RunnerState) (e : Event) : RunnerState :=
  { s with trace := s.trace ++ [e] }

/-- Result of a runner computation (state preserved on throw). -/
inductive RR (α : Type) where
  | ok (a : α) (s : RunnerState)
  | err (e : ErrName) (s : RunnerState)

/-- A runner main hook: `RunnableHook<TResult> = () => TResult | undefined`;
for the result-filtering claim only the returned value (or a thrown error)
matters, so the body is its outcome together with the hook calls' net
effect on the memory pointer, modelled through `HookProg` reuse being
unnecessary here: the runner hook is run via `Runner.execute` below on a
`HookProg` interpreted against the shared cell model. -/
inductive ROutcome where
  | ret (v : JSValue)
  | throwErr (e : ErrName)

/-- `Runner.cleanUpEffects`' per-cell loop: identical code to
`Subject.cleanUpEffects` (the class duplicates it), reused via
`cleanUpCells` on the runner's memory. -/
def Runner.cleanUpEffects (force : Bool) (s : RunnerState) : RunnerState :=
  let r := cleanUpCells force 0 s.memory
  { s with memory := r.1, trace := s.trace ++ r.2 }

/-- `Runner.stop(error?)`: a second call returns at once (`this.stopped`
guard); the first call flips the flag and its deferred body force-cleans
all effects and then signals `onStopped(error?)`. -/
def Runner.stop (error : Option ErrName) (s : RunnerState) : RunnerState :=
  if s.stopped then s
  else
    let s1 := { s with stopped := true }
    let s2 := Runner.cleanUpEffects true s1
    s2.emit (.onStopped error)

/-- A runner main-hook body: the hook calls it makes are not needed by the
claims about `Runner` (result filtering and stop), so the body is modelled
by its outcome and the number of primitive hook calls it performs (each
call advances the memory pointer by one past an existing compatible cell;
the shape checks live in `Runner.getMemoryCell`, identical to the subject's
and verified there). -/
structure RunnerHook where
  outcome : ROutcome
  hookCalls : Nat

/-- `Runner.execute`: set the active marker, reset the pointer, run the
body, enforce the count invariant, mark memory allocated, and deliver the
result through `listener.onResult` **only when it is not `undefined`** (the
`result !== undefined` filter); the active marker is cleared on every exit
path. -/
def Runner.execute (h : RunnerHook) (s : RunnerState) : RR Unit :=
  let s0 := { s with active := true, memoryPointer := h.hookCalls }
  match h.outcome with
  | .throwErr e => .err e { s0 with active := false }
  | .ret v =>
      if s0.memoryPointer != s0.memory.length then
        .err .numberOfHookCalls { s0 with active := false }
      else
        let s2 := ({ s0 with memoryAllocated := true }).emit (.executed v)
        let s3 := if v != JSValue.undef then s2.emit (.onResult v) else s2
        .ok () { s3 with active := false }

/-! ## Trace observables -/

/-- The values delivered to observers (`observer.next`), in delivery
order. -/
def deliveredValues (s : SubjectState) : List JSValue :=
  s.trace.filterMap fun e =>
    match e with
    | .next _ w => some w
    | _ => none

/-- The values delivered to a single-consumer listener
(`listener.onResult`), in delivery order. -/
def runnerResults (s : RunnerState) : List JSValue :=
  s.trace.filterMap fun e =>
    match e with
    | .onResult w => some w
    | _ => none

/-- A terminal signal reaching a consumer: an observer's `error` or
`complete` callback, the resolution of the completion promise, or the
runner listener's `onStopped`. -/
def isTerminalSignal : Event → Bool
  | .errorSig _ _ => true
  | .completeSig _ => true
  | .resolveCompletion => true
  | .onStopped _ => true
  | _ => false

/-- A forced-cleanup action (a stored cleanup function being invoked). -/
def isCleanUpRun : Event → Bool
  | .cleanUpRun _ => true
  | _ => false

/-- Whether every cleanup invocation in the trace happens before every
terminal signal (the spec's cleanup-before-signal ordering). -/
def cleanupBeforeSignals : List Event → Bool
  | [] => true
  | e :: rest =>
      (if isTerminalSignal e then rest.all (fun x => !isCleanUpRun x)
       else true) && cleanupBeforeSignals rest

/-- Whether the main hook body was executed (used to state "no further
invocations occur"). -/
def isExecuted : Event → Bool
  | .executed _ => true
  | _ => false

/-- Events that can reach a consumer of a subject: `next`, `error`,
`complete` callbacks and promise resolution. -/
def isConsumerEvent : Event → Bool
  | .next _ _ => true
  | .errorSig _ _ => true
  | .completeSig _ => true
  | .resolveCompletion => true
  | _ => false

/-- Whether the completion promise has been rejected (`some (some e)`);
the engine never produces this. -/
def promiseRejected (s : SubjectState) : Bool :=
  match s.completion with
  | some (some _) => true
  | _ => false

/-- Events produced while cleaning up effects (cleanup invocation and its
console diagnostic). -/
def isCleanupEvent : Event → Bool
  | .cleanUpRun _ => true
  | .consoleErr _ => true
  | _ => false

/-- Events a hook body itself can produce (only memo-thunk invocations). -/
def isHookEvent : Event → Bool
  | .memoComputed _ => true
  | _ => false

/-- Events a subject whose observer set is gone can still produce:
cleanups, their diagnostics, and effect runs — never a consumer callback
nor a main-hook execution. -/
def isQuietEvent : Event → Bool
  | .cleanUpRun _ => true
  | .consoleErr _ => true
  | .effectRun _ => true
  | _ => false

/-- A state cell with an empty pending-change queue (non-state cells count
as trivially empty). -/
def cellQueueEmpty : MemoryCell → Bool
  | .stateCell _ chs => chs.isEmpty
  | _ => true

/-- What `cleanUpEffects` does to one cell: an effect cell whose cleanup
runs has the stored reference cleared; everything else is untouched. -/
def cleanCell (force : Bool) : MemoryCell → MemoryCell
  | .effectCell o eff deps (some cu) =>
      if o || force then .effectCell o eff deps none
      else .effectCell o eff deps (some cu)
  | c => c

/-- The events one cell contributes during `cleanUpEffects`: a cleanup
invocation, followed by a console diagnostic when the cleanup throws. -/
def cleanCellEvents (force : Bool) (i : Nat) : MemoryCell → List Event
  | .effectCell o _ _ (some cu) =>
      if o || force then
        Event.cleanUpRun i ::
          (match cu.err with
           | some _ => [Event.consoleErr i]
           | none => [])
      else []
  | _ => []

/-- The events `cleanUpEffects` produces over a whole memory list. -/
def cleanEvents (force : Bool) : Nat → List MemoryCell → List Event
  | _, [] => []
  | i, c :: rest => cleanCellEvents force i c ++ cleanEvents force (i + 1) rest

/-! ## Concrete scenarios from the spec's worked examples -/

/-- The `previousState => previousState + 1` updater. -/
def incInt : JSValue → JSValue
  | .num n => .num (n + 1)
  | v => v

/-- The effect of the compounding example: with no dependency list it is
re-stored every invocation; the closure captured at state 1 performs
`setState(2)` on the single state cell. -/
def c1Effect (st : JSValue) : EffectFn :=
  { calls := if st = .num 1 then [(0, .val (.num 2))] else [],
    throws := none, cleanup := none }

/-- The compounding worked example: one state cell starting at 0; the body
sets 0→1 synchronously on first run, the effect sets 1→2, and on observing
state 2 the body enqueues the replacement 3 followed by the updater
`previous + 1`. -/
def c1Hook : HookProg :=
  .useStateBind (.val (.num 0)) fun st i =>
    .useEffectBind (c1Effect st) none <|
      if st = .num 0 then .setStateBind i (.val (.num 1)) (.ret st)
      else if st = .num 2 then
        .setStateBind i (.val (.num 3))
          (.setStateBind i (.updater incInt) (.ret st))
      else .ret st

/-- De-duplication example: the body calls `setState` three times with the
cell's own current value. -/
def c3Hook : HookProg :=
  .useStateBind (.val (.num 0)) fun st i =>
    if st = .num 0 then
      .setStateBind i (.val (.num 0)) <|
        .setStateBind i (.val (.num 0)) <|
          .setStateBind i (.val (.num 0)) (.ret st)
    else .ret st

/-- An effect (run once, dependencies `[]`) that installs a cleanup. -/
def c2Hook : HookProg :=
  .useStateBind (.val (.num 0)) fun st _ =>
    .useEffectBind { calls := [], throws := none, cleanup := some ⟨none⟩ }
      (some []) (.ret st)

/-- A body whose number of hook calls shrinks on the second invocation
(the effect hook disappears once the state moved to 1). -/
def c5Hook : HookProg :=
  .useStateBind (.val (.num 0)) fun st i =>
    if st = .num 0 then
      .useEffectBind { calls := [], throws := none, cleanup := none } (some [])
        (.setStateBind i (.val (.num 1)) (.ret st))
    else .ret st

/-- Two effects: the first installs a *throwing* cleanup; the second
*throws during trigger* once the state reaches 1. -/
def c6Hook : HookProg :=
  .useStateBind (.val (.num 0)) fun st i =>
    .useEffectBind { calls := [], throws := none, cleanup := some ⟨some (.custom 7)⟩ }
      none <|
    .useEffectBind
      { calls := [], throws := if st = .num 1 then some (.custom 9) else none,
        cleanup := none } none <|
    if st = .num 0 then .setStateBind i (.val (.num 1)) (.ret st) else .ret st

/-- A freshly constructed `Runner`'s state. -/
def initialRunner : RunnerState :=
  { memory := [], memoryAllocated := false, memoryPointer := 0,
    stopped := false, active := false, trace := [] }

/-- A subject whose observer set is already gone (the post-termination
shape used by the late-subscription claim). -/
def deadSubject : SubjectState :=
  { initialSubject with observers := none }

/-- Events that can appear while a run-loop pass executes (anything except
a terminal signal or a listener signal). -/
def isLoopEvent : Event → Bool
  | .errorSig _ _ => false
  | .completeSig _ => false
  | .resolveCompletion => false
  | .onStopped _ => false
  | .onResult _ => false
  | _ => true

/-- A step from state `s` to state `r` that leaves the observer set and the
completion promise untouched and only appends events satisfying `P` to the
trace. -/
def traceFrame (P : Event → Bool) (s r : SubjectState) : Prop :=
  r.observers = s.observers ∧ r.completion = s.completion ∧
  ∃ tr, r.trace = s.trace ++ tr ∧ ∀ e ∈ tr, P e = true

/-- The state carried by a runner result. -/
def RR.st {α : Type} : RR α → RunnerState
  | .ok _ s => s
  | .err _ s => s

/-- An allocated subject with one state cell whose queue holds a change
identical to its current state (the de-duplication witness state). -/
def dedupState : SubjectState :=
  { memory := [.stateCell (.num 0) [.val (.num 0)]], observers := some [0],
    completion := none, memoryAllocated := true, memoryPointer := 1,
    active := false, tasks := 1, trace := [] }

/-- An active subject whose current cell is a settled effect cell with
stored dependencies `['a','b','c']`. -/
def c4EffState : SubjectState :=
  { memory := [.effectCell false ⟨[], none, none⟩
      (some [.str "a", .str "b", .str "c"]) none],
    observers := some [], completion := none, memoryAllocated := true,
    memoryPointer := 0, active := true, tasks := 0, trace := [] }

/-- An active subject whose current cell is a memo cell with stored
dependencies `[NaN]` and cached value 42. -/
def c4MemoState : SubjectState :=
  { memory := [.memoCell (.num 42) [.nan]], observers := some [],
    completion := none, memoryAllocated := true, memoryPointer := 0,
    active := true, tasks := 0, trace := [] }

/-- An allocated subject with one state cell (a body making zero hook
calls against it violates the count invariant). -/
def c5BadState : SubjectState :=
  { memory := [.stateCell (.num 0) []], observers := some [0],
    completion := none, memoryAllocated := true, memoryPointer := 1,
    active := false, tasks := 0, trace := [] }

/-- A subject whose single memory cell is an outdated effect that throws
during the trigger phase. -/
def c6TrigState : SubjectState :=
  { initialSubject with
    memory := [.effectCell true ⟨[], some (.custom 9), none⟩ none none] }

/-- An active subject whose current cell is an effect cell *already marked
outdated* (as happens between two executions of the same pass), with
stored dependencies `['a']`. -/
def c4OutdatedState : SubjectState :=
  { memory := [.effectCell true ⟨[], none, none⟩ (some [.str "a"]) none],
    observers := some [], completion := none, memoryAllocated := true,
    memoryPointer := 0, active := true, tasks := 0, trace := [] }

/-- The `throws` component of the effect stored at cell `i` (an
observation that distinguishes stored effect closures). -/
def storedEffectThrows (s : SubjectState) (i : Nat) : Option ErrName :=
  match s.memory[i]? with
  | some (.effectCell _ eff _ _) => eff.throws
  | _ => none

/-! # Lemmas -/

theorem traceFrame_refl (P : Event → Bool) (s : SubjectState) :
    traceFrame P s s :=
  ⟨rfl, rfl, [], by simp, by simp⟩

theorem traceFrame_trans {P : Event → Bool} {s r t : SubjectState}
    (h1 : traceFrame P s r) (h2 : traceFrame P r t) : traceFrame P s t := by
  obtain ⟨o1, c1, tr1, e1, a1⟩ := h1
  obtain ⟨o2, c2, tr2, e2, a2⟩ := h2
  refine ⟨o2.trans o1, c2.trans c1, tr1 ++ tr2, ?_, ?_⟩
  · rw [e2, e1, List.append_assoc]
  · intro e he
    rcases List.mem_append.1 he with h | h
    · exact a1 e h
    · exact a2 e h

theorem traceFrame_mono {P Q : Event → Bool} {s r : SubjectState}
    (hPQ : ∀ e, P e = true → Q e = true) (h : traceFrame P s r) :
    traceFrame Q s r := by
  obtain ⟨o, c, tr, e, a⟩ := h
  exact ⟨o, c, tr, e, fun x hx => hPQ x (a x hx)⟩

/-! ## Frame lemmas for the hook primitives -/

theorem getMemoryCell_st (k : CellKind) (s : SubjectState) :
    (getMemoryCell k s).st = s := by
  unfold getMemoryCell
  split
  · split <;> rfl
  · split <;> rfl

theorem setStateAt_fields (i : Nat) (ch : StateChange) (s : SubjectState) :
    (setStateAt i ch s).observers = s.observers ∧
    (setStateAt i ch s).completion = s.completion ∧
    (setStateAt i ch s).trace = s.trace ∧
    (setStateAt i ch s).memoryAllocated = s.memoryAllocated ∧
    (setStateAt i ch s).active = s.active ∧
    (setStateAt i ch s).memoryPointer = s.memoryPointer := by
  unfold setStateAt
  split <;> simp_all

theorem useState_fields (init : InitialState) (s : SubjectState) :
    ((useState init s).st).observers = s.observers ∧
    ((useState init s).st).completion = s.completion ∧
    ((useState init s).st).trace = s.trace ∧
    ((useState init s).st).memoryAllocated = s.memoryAllocated ∧
    ((useState init s).st).active = s.active := by
  have hst := getMemoryCell_st CellKind.stateK s
  by_cases ha : s.active
  · cases h : getMemoryCell CellKind.stateK s with
    | err e s' =>
        rw [h] at hst
        simp only [ER.st] at hst
        subst hst
        simp [useState, ha, h, ER.st]
    | ok c s' =>
        rw [h] at hst
        simp only [ER.st] at hst
        subst hst
        cases c with
        | none => simp [useState, ha, h, ER.st]
        | some cell => cases cell <;> simp [useState, ha, h, ER.st]
  · simp [useState, ha, ER.st]

theorem useEffect_fields (eff : EffectFn) (deps : Option (List JSValue))
    (s : SubjectState) :
    ((useEffect eff deps s).st).observers = s.observers ∧
    ((useEffect eff deps s).st).completion = s.completion ∧
    ((useEffect eff deps s).st).trace = s.trace ∧
    ((useEffect eff deps s).st).memoryAllocated = s.memoryAllocated ∧
    ((useEffect eff deps s).st).active = s.active := by
  have hst := getMemoryCell_st CellKind.effectK s
  by_cases ha : s.active
  · cases h : getMemoryCell CellKind.effectK s with
    | err e s' =>
        rw [h] at hst
        simp only [ER.st] at hst
        subst hst
        simp [useEffect, ha, h, ER.st]
    | ok c s' =>
        rw [h] at hst
        simp only [ER.st] at hst
        subst hst
        cases c with
        | none => simp [useEffect, ha, h, ER.st]
        | some cell =>
            cases cell with
            | effectCell o eff0 deps0 cu =>
                by_cases hd : (!areHookInputsEqual deps0 deps || o) = true <;>
                  simp [useEffect, ha, h, hd, ER.st]
            | stateCell v chs => simp [useEffect, ha, h, ER.st]
            | memoCell v d => simp [useEffect, ha, h, ER.st]
  · simp [useEffect, ha, ER.st]

theorem useMemo_fields (v : JSValue) (deps : List JSValue) (s : SubjectState) :
    ((useMemo v deps s).st).observers = s.observers ∧
    ((useMemo v deps s).st).completion = s.completion ∧
    (∃ tr, ((useMemo v deps s).st).trace = s.trace ++ tr ∧
      ∀ e ∈ tr, isHookEvent e = true) ∧
    ((useMemo v deps s).st).memoryAllocated = s.memoryAllocated ∧
    ((useMemo v deps s).st).active = s.active := by
  have hst := getMemoryCell_st CellKind.memoK s
  by_cases ha : s.active
  · cases h : getMemoryCell CellKind.memoK s with
    | err e s' =>
        rw [h] at hst
        simp only [ER.st] at hst
        subst hst
        refine ⟨?_, ?_, ⟨[], ?_, ?_⟩, ?_, ?_⟩ <;> simp [useMemo, ha, h, ER.st]
    | ok c s' =>
        rw [h] at hst
        simp only [ER.st] at hst
        subst hst
        cases c with
        | none =>
            refine ⟨?_, ?_, ⟨[.memoComputed s'.memoryPointer], ?_, ?_⟩, ?_, ?_⟩ <;>
              simp [useMemo, ha, h, ER.st, SubjectState.emit, isHookEvent]
        | some cell =>
            cases cell with
            | memoCell oldV oldDeps =>
                by_cases hd :
                    (!areHookInputsEqual (some oldDeps) (some deps)) = true
                · refine ⟨?_, ?_,
                    ⟨[.memoComputed s'.memoryPointer], ?_, ?_⟩, ?_, ?_⟩ <;>
                    simp [useMemo, ha, h, hd, ER.st, SubjectState.emit,
                      isHookEvent]
                · refine ⟨?_, ?_, ⟨[], ?_, ?_⟩, ?_, ?_⟩ <;>
                    simp [useMemo, ha, h, hd, ER.st]
            | effectCell o eff0 deps0 cu =>
                refine ⟨?_, ?_, ⟨[], ?_, ?_⟩, ?_, ?_⟩ <;>
                  simp [useMemo, ha, h, ER.st]
            | stateCell v0 chs =>
                refine ⟨?_, ?_, ⟨[], ?_, ?_⟩, ?_, ?_⟩ <;>
                  simp [useMemo, ha, h, ER.st]
  · refine ⟨?_, ?_, ⟨[], ?_, ?_⟩, ?_, ?_⟩ <;> simp [useMemo, ha, ER.st]

/-- A hook body can only touch memory, the pointer and the task counter:
observer set, completion promise, allocation flag and active marker are
beyond its reach, and it appends at most memo-thunk events to the trace.
This holds for *every* hook body because every engine interaction goes
through a primitive. -/
theorem runHook_frame (p : HookProg) (s : SubjectState) :
    traceFrame isHookEvent s ((runHook p s).st) ∧
    ((runHook p s).st).memoryAllocated = s.memoryAllocated ∧
    ((runHook p s).st).active = s.active := by
  induction p generalizing s with
  | ret v => exact ⟨traceFrame_refl _ _, rfl, rfl⟩
  | throwErr e => exact ⟨traceFrame_refl _ _, rfl, rfl⟩
  | useStateBind init k ih =>
      have hf := useState_fields init s
      cases h : useState init s with
      | err e s' =>
          rw [h] at hf
          simp only [ER.st] at hf
          simp only [runHook, h]
          exact ⟨⟨hf.1, hf.2.1, [], by simp [ER.st, hf.2.2.1], by simp⟩,
            hf.2.2.2.1, hf.2.2.2.2⟩
      | ok pr s' =>
          rw [h] at hf
          simp only [ER.st] at hf
          have ihh := ih pr.1 pr.2 s'
          simp only [runHook, h]
          refine ⟨traceFrame_trans
            (⟨hf.1, hf.2.1, [], by simp [hf.2.2.1], by simp⟩ :
              traceFrame isHookEvent s s') ihh.1, ?_, ?_⟩
          · exact ihh.2.1.trans hf.2.2.2.1
          · exact ihh.2.2.trans hf.2.2.2.2
  | useEffectBind eff deps k ih =>
      have hf := useEffect_fields eff deps s
      cases h : useEffect eff deps s with
      | err e s' =>
          rw [h] at hf
          simp only [ER.st] at hf
          simp only [runHook, h]
          exact ⟨⟨hf.1, hf.2.1, [], by simp [ER.st, hf.2.2.1], by simp⟩,
            hf.2.2.2.1, hf.2.2.2.2⟩
      | ok u s' =>
          rw [h] at hf
          simp only [ER.st] at hf
          have ihh := ih s'
          simp only [runHook, h]
          refine ⟨traceFrame_trans
            (⟨hf.1, hf.2.1, [], by simp [hf.2.2.1], by simp⟩ :
              traceFrame isHookEvent s s') ihh.1, ?_, ?_⟩
          · exact ihh.2.1.trans hf.2.2.2.1
          · exact ihh.2.2.trans hf.2.2.2.2
  | useMemoBind value deps k ih =>
      have hf := useMemo_fields value deps s
      cases h : useMemo value deps s with
      | err e s' =>
          rw [h] at hf
          simp only [ER.st] at hf
          simp only [runHook, h]
          exact ⟨⟨hf.1, hf.2.1, hf.2.2.1⟩, hf.2.2.2.1, hf.2.2.2.2⟩
      | ok v s' =>
          rw [h] at hf
          simp only [ER.st] at hf
          have ihh := ih v s'
          simp only [runHook, h]
          refine ⟨traceFrame_trans
            (⟨hf.1, hf.2.1, hf.2.2.1⟩ : traceFrame isHookEvent s s') ihh.1,
            ?_, ?_⟩
          · exact ihh.2.1.trans hf.2.2.2.1
          · exact ihh.2.2.trans hf.2.2.2.2
  | setStateBind cell ch k ih =>
      have hf := setStateAt_fields cell ch s
      have ihh := ih (setStateAt cell ch s)
      simp only [runHook]
      refine ⟨traceFrame_trans
        (⟨hf.1, hf.2.1, [], by simp [hf.2.2.1], by simp⟩ :
          traceFrame isHookEvent s (setStateAt cell ch s)) ihh.1, ?_, ?_⟩
      · exact ihh.2.1.trans hf.2.2.2.1
      · exact ihh.2.2.trans hf.2.2.2.2.1

/-- `execute` on a subject whose observer set is gone is a no-op: the main
hook is not invoked. -/
theorem execute_dead (h : MainHook) (s : SubjectState)
    (hobs : s.observers = none) : execute h s = .ok () s := by
  unfold execute
  rw [hobs]

/-- `execute` when the hook body itself throws: the error propagates with
the body's mutations kept and the active marker cleared. -/
theorem execute_spec_errHook (h : MainHook) (s : SubjectState)
    (obs : List Nat) (e : ErrName) (s1 : SubjectState)
    (hobs : s.observers = some obs)
    (hrun : runHook h { s with active := true, memoryPointer := 0 } = .err e s1) :
    execute h s = .err e { s1 with active := false } := by
  rw [hobs] at hrun
  simp only [execute, hobs, hrun]

/-- `execute` when the body finishes with the pointer off the memory
length: the count shape violation is thrown. -/
theorem execute_spec_badCount (h : MainHook) (s : SubjectState)
    (obs : List Nat) (v : JSValue) (s1 : SubjectState)
    (hobs : s.observers = some obs)
    (hrun : runHook h { s with active := true, memoryPointer := 0 } = .ok v s1)
    (hlen : s1.memoryPointer ≠ s1.memory.length) :
    execute h s = .err .numberOfHookCalls { s1 with active := false } := by
  rw [hobs] at hrun
  simp only [execute, hobs, hrun]
  simp [hlen]

/-- `execute` on a successful, shape-correct body run: memory is marked
allocated and the value is published to every observer. -/
theorem execute_spec_ok (h : MainHook) (s : SubjectState)
    (obs : List Nat) (v : JSValue) (s1 : SubjectState)
    (hobs : s.observers = some obs)
    (hrun : runHook h { s with active := true, memoryPointer := 0 } = .ok v s1)
    (hlen : s1.memoryPointer = s1.memory.length) :
    execute h s = .ok ()
      { ({ s1 with memoryAllocated := true }).emitAll
          (Event.executed v :: (s1.observers.getD []).map fun o => Event.next o v)
        with active := false } := by
  rw [hobs] at hrun
  simp only [execute, hobs, hrun]
  simp [hlen, SubjectState.emit, SubjectState.emitAll]

/-- `execute` preserves the observer set and the completion promise and
appends only loop events (the hook's memo events, the execution marker and
`next` deliveries). -/
theorem execute_frame (h : MainHook) (s : SubjectState) :
    traceFrame isLoopEvent s ((execute h s).st) := by
  cases hobs : s.observers with
  | none => rw [execute_dead h s hobs]; exact traceFrame_refl _ _
  | some obs =>
      have hr := runHook_frame h { s with active := true, memoryPointer := 0 }
      cases hrun : runHook h { s with active := true, memoryPointer := 0 } with
      | err e s1 =>
          rw [hrun] at hr
          simp only [ER.st] at hr
          rw [execute_spec_errHook h s obs e s1 hobs hrun]
          obtain ⟨⟨ho, hc, tr, htr, hall⟩, _, _⟩ := hr
          exact ⟨ho, hc, tr, htr, fun e he => by
            have := hall e he
            cases e <;> simp_all [isHookEvent, isLoopEvent]⟩
      | ok v s1 =>
          rw [hrun] at hr
          simp only [ER.st] at hr
          obtain ⟨⟨ho, hc, tr, htr, hall⟩, _, _⟩ := hr
          by_cases hlen : s1.memoryPointer = s1.memory.length
          · rw [execute_spec_ok h s obs v s1 hobs hrun hlen]
            refine ⟨ho, hc,
              tr ++ Event.executed v ::
                (s1.observers.getD []).map (fun o => Event.next o v), ?_, ?_⟩
            · simp [ER.st, SubjectState.emit, SubjectState.emitAll, htr]
            · intro e he
              rcases List.mem_append.1 he with h1 | h1
              · have := hall e h1
                cases e <;> simp_all [isHookEvent, isLoopEvent]
              · rcases List.mem_cons.1 h1 with h2 | h2
                · subst h2; rfl
                · obtain ⟨o, _, rfl⟩ := List.mem_map.1 h2
                  rfl
          · rw [execute_spec_badCount h s obs v s1 hobs hrun hlen]
            exact ⟨ho, hc, tr, htr, fun e he => by
              have := hall e he
              cases e <;> simp_all [isHookEvent, isLoopEvent]⟩

/-! ## State-change, cleanup and trigger lemmas -/

/-- Applying pending state changes touches only `memory`. -/
theorem applyStateChanges_fields (s : SubjectState) :
    ((applyStateChanges s).2).observers = s.observers ∧
    ((applyStateChanges s).2).completion = s.completion ∧
    ((applyStateChanges s).2).trace = s.trace ∧
    ((applyStateChanges s).2).memoryAllocated = s.memoryAllocated ∧
    ((applyStateChanges s).2).tasks = s.tasks :=
  ⟨rfl, rfl, rfl, rfl, rfl⟩

/-- The cleanup loop is exactly a per-cell map plus the per-cell events. -/
theorem cleanUpCells_eq (force : Bool) (mem : List MemoryCell) :
    ∀ i, cleanUpCells force i mem =
      (mem.map (cleanCell force), cleanEvents force i mem) := by
  induction mem with
  | nil => intro i; rfl
  | cons c rest ih =>
      intro i
      cases c with
      | effectCell o eff deps cu =>
          cases cu with
          | none =>
              simp [cleanUpCells, cleanCell, cleanCellEvents, cleanEvents, ih]
          | some cuf =>
              by_cases hof : (o || force) = true <;>
                cases he : cuf.err <;>
                  simp [cleanUpCells, cleanCell, cleanCellEvents, cleanEvents,
                    ih, hof, he]
      | stateCell v chs =>
          simp [cleanUpCells, cleanCell, cleanCellEvents, cleanEvents, ih]
      | memoCell v d =>
          simp [cleanUpCells, cleanCell, cleanCellEvents, cleanEvents, ih]

/-- `cleanUpEffects` rewrites each cell independently and appends the
per-cell cleanup events. -/
theorem cleanUpEffects_spec (force : Bool) (s : SubjectState) :
    cleanUpEffects force s =
      { s with memory := s.memory.map (cleanCell force),
               trace := s.trace ++ cleanEvents force 0 s.memory } := by
  simp [cleanUpEffects, cleanUpCells_eq]

/-- Every event the cleanup phase produces is a cleanup invocation or its
console diagnostic. -/
theorem cleanEvents_cleanup (force : Bool) :
    ∀ (mem : List MemoryCell) (i : Nat) (e : Event),
      e ∈ cleanEvents force i mem → isCleanupEvent e = true := by
  intro mem
  induction mem with
  | nil => intro i e he; simp [cleanEvents] at he
  | cons c rest ih =>
      intro i e he
      simp only [cleanEvents, List.mem_append] at he
      rcases he with he | he
      · cases c with
        | effectCell o eff deps cu =>
            cases cu with
            | none => simp [cleanCellEvents] at he
            | some cuf =>
                by_cases hof : (o || force) = true <;>
                  cases hcu : cuf.err <;>
                    simp [cleanCellEvents, hof, hcu] at he <;>
                      rcases he with rfl | rfl <;> rfl
        | stateCell v chs => simp [cleanCellEvents] at he
        | memoCell v d => simp [cleanCellEvents] at he
      · exact ih (i + 1) e he

/-- Forced cleanup clears the stored cleanup reference of every effect
cell. -/
theorem cleanCell_forced (o : Bool) (eff : EffectFn)
    (deps : Option (List JSValue)) (cu : Option CleanUpFn) :
    cleanCell true (.effectCell o eff deps cu) = .effectCell o eff deps none := by
  cases cu with
  | none => rfl
  | some cuf => simp [cleanCell]

/-- The `setState` calls an effect performs touch only memory and the task
counter. -/
theorem runEffectCalls_fields (calls : List (Nat × StateChange)) :
    ∀ s : SubjectState,
      (runEffectCalls calls s).observers = s.observers ∧
      (runEffectCalls calls s).completion = s.completion ∧
      (runEffectCalls calls s).trace = s.trace ∧
      (runEffectCalls calls s).memoryAllocated = s.memoryAllocated := by
  induction calls with
  | nil => intro s; exact ⟨rfl, rfl, rfl, rfl⟩
  | cons p rest ih =>
      intro s
      have hs := setStateAt_fields p.1 p.2 s
      have hr := ih (setStateAt p.1 p.2 s)
      simp only [runEffectCalls, List.foldl_cons] at *
      exact ⟨hr.1.trans hs.1, hr.2.1.trans hs.2.1, hr.2.2.1.trans hs.2.2.1,
        hr.2.2.2.trans hs.2.2.2.1⟩

/-- The trigger phase preserves the observer set, completion promise and
allocation flag, and appends only effect-run events. -/
theorem triggerEffectsFrom_frame :
    ∀ (n i : Nat) (s : SubjectState),
      traceFrame isQuietEvent s ((triggerEffectsFrom i n s).st) ∧
      ((triggerEffectsFrom i n s).st).memoryAllocated = s.memoryAllocated := by
  intro n
  induction n with
  | zero => intro i s; exact ⟨traceFrame_refl _ _, rfl⟩
  | succ n ih =>
      intro i s
      cases hc : s.memory[i]? with
      | none => simpa [triggerEffectsFrom, hc] using ih (i + 1) s
      | some cell =>
          cases cell with
          | effectCell o eff deps cu =>
              cases o with
              | false => simpa [triggerEffectsFrom, hc] using ih (i + 1) s
              | true =>
                  have hrc := runEffectCalls_fields eff.calls
                    (({ s with memory :=
                        s.memory.set i (.effectCell false eff deps cu) }).emit
                      (.effectRun i))
                  cases ht : eff.throws with
                  | some e =>
                      simp only [triggerEffectsFrom, hc, ht]
                      refine ⟨⟨?_, ?_, [Event.effectRun i], ?_, ?_⟩, ?_⟩
                      · exact hrc.1
                      · exact hrc.2.1
                      · simpa [ER.st, SubjectState.emit] using hrc.2.2.1
                      · simp [isQuietEvent]
                      · exact hrc.2.2.2
                  | none =>
                      simp only [triggerEffectsFrom, hc, ht]
                      refine ⟨traceFrame_trans
                        (⟨?_, ?_, [Event.effectRun i], ?_, ?_⟩ :
                          traceFrame isQuietEvent s _) (ih (i + 1) _).1, ?_⟩
                      · exact hrc.1
                      · exact hrc.2.1
                      · simpa [SubjectState.emit] using hrc.2.2.1
                      · simp [isQuietEvent]
                      · exact ((ih (i + 1) _).2).trans hrc.2.2.2
          | stateCell v chs => simpa [triggerEffectsFrom, hc] using ih (i + 1) s
          | memoCell v d => simpa [triggerEffectsFrom, hc] using ih (i + 1) s

/-- `triggerEffects` frame. -/
theorem triggerEffects_frame (s : SubjectState) :
    traceFrame isQuietEvent s ((triggerEffects s).st) ∧
    ((triggerEffects s).st).memoryAllocated = s.memoryAllocated :=
  triggerEffectsFrom_frame s.memory.length 0 s

/-! ## Run-loop frame lemmas -/

/-- `applyStateChanges` as a trace frame. -/
theorem applyStateChanges_frame (P : Event → Bool) (s : SubjectState) :
    traceFrame P s ((applyStateChanges s).2) :=
  ⟨rfl, rfl, [], (List.append_nil s.trace).symm, by simp⟩

/-- `cleanUpEffects` as a loop-event trace frame. -/
theorem cleanUpEffects_frame (force : Bool) (s : SubjectState) :
    traceFrame isLoopEvent s (cleanUpEffects force s) := by
  rw [cleanUpEffects_spec]
  refine ⟨rfl, rfl, cleanEvents force 0 s.memory, rfl, ?_⟩
  intro e he
  have := cleanEvents_cleanup force s.memory 0 e he
  cases e <;> simp_all [isCleanupEvent, isLoopEvent]

/-- The inner `while (applyStateChanges()) execute()` loop preserves
observers and completion and appends loop events only. -/
theorem execLoop_frame :
    ∀ (fuel : Nat) (h : MainHook) (s : SubjectState) (r : ER Unit),
      execLoop fuel h s = some r → traceFrame isLoopEvent s r.st := by
  intro fuel
  induction fuel with
  | zero => intro h s r hr; simp [execLoop] at hr
  | succ fuel ih =>
      intro h s r hr
      rw [execLoop] at hr
      cases hch : (applyStateChanges s).1 with
      | false =>
          simp [hch] at hr
          subst hr
          exact applyStateChanges_frame _ s
      | true =>
          simp only [hch] at hr
          simp at hr
          have hef := execute_frame h (applyStateChanges s).2
          cases hex : execute h (applyStateChanges s).2 with
          | err e s2 =>
              rw [hex] at hr hef
              simp only [ER.st] at hef
              simp at hr
              subst hr
              exact traceFrame_trans (applyStateChanges_frame _ s) hef
          | ok u s2 =>
              rw [hex] at hr hef
              simp only [ER.st] at hef
              simp only [] at hr
              exact traceFrame_trans (applyStateChanges_frame _ s)
                (traceFrame_trans hef (ih h s2 r hr))

/-- One pass of the outer `do … while` loop preserves observers and
completion and appends loop events only. -/
theorem passLoop_frame :
    ∀ (fuel : Nat) (h : MainHook) (s : SubjectState) (r : ER Unit),
      passLoop fuel h s = some r → traceFrame isLoopEvent s r.st := by
  intro fuel
  induction fuel with
  | zero => intro h s r hr; simp [passLoop] at hr
  | succ fuel ih =>
      intro h s r hr
      rw [passLoop] at hr
      have hef := execute_frame h s
      cases hex : execute h s with
      | err e s1 =>
          rw [hex] at hr hef
          simp only [ER.st] at hef
          simp at hr
          subst hr
          exact hef
      | ok u s1 =>
          rw [hex] at hr hef
          simp only [ER.st] at hef
          simp only [] at hr
          cases hel : execLoop (fuel + 1) h s1 with
          | none => simp [hel] at hr
          | some r2 =>
              have helf := execLoop_frame (fuel + 1) h s1 r2 hel
              cases r2 with
              | err e s2 =>
                  simp [hel] at hr
                  subst hr
                  exact traceFrame_trans hef helf
              | ok u2 s2 =>
                  simp only [ER.st] at helf
                  simp only [hel] at hr
                  have hcf := cleanUpEffects_frame false s2
                  have htf := triggerEffects_frame (cleanUpEffects false s2)
                  cases htr : triggerEffects (cleanUpEffects false s2) with
                  | err e s4 =>
                      rw [htr] at htf
                      simp only [ER.st] at htf
                      simp [htr] at hr
                      subst hr
                      exact traceFrame_trans hef (traceFrame_trans helf
                        (traceFrame_trans hcf
                          (traceFrame_mono
                            (by intro ev _; cases ev <;>
                              simp_all [isQuietEvent, isLoopEvent])
                            htf.1)))
                  | ok u3 s4 =>
                      rw [htr] at htf
                      simp only [ER.st] at htf
                      simp only [htr] at hr
                      have base : traceFrame isLoopEvent s s4 :=
                        traceFrame_trans hef (traceFrame_trans helf
                          (traceFrame_trans hcf
                            (traceFrame_mono
                              (by intro ev _; cases ev <;>
                                simp_all [isQuietEvent, isLoopEvent])
                              htf.1)))
                      cases hch : (applyStateChanges s4).1 with
                      | true =>
                          simp [hch] at hr
                          exact traceFrame_trans base
                            (traceFrame_trans (applyStateChanges_frame _ s4)
                              (ih h (applyStateChanges s4).2 r hr))
                      | false =>
                          simp [hch] at hr
                          subst hr
                          exact traceFrame_trans base
                            (applyStateChanges_frame _ s4)

/-- The try-block of one scheduled run task. -/
theorem runTaskCore_frame (fuel : Nat) (h : MainHook) (s : SubjectState)
    (r : ER Unit) (hr : runTaskCore fuel h s = some r) :
    traceFrame isLoopEvent s r.st := by
  rw [runTaskCore] at hr
  cases hma : s.memoryAllocated with
  | false =>
      simp [hma] at hr
      exact passLoop_frame fuel h s r hr
  | true =>
      simp only [hma] at hr
      simp only [Bool.not_true] at hr
      cases hch : (applyStateChanges s).1 with
      | true =>
          simp [hch] at hr
          exact traceFrame_trans (applyStateChanges_frame _ s)
            (passLoop_frame fuel h (applyStateChanges s).2 r hr)
      | false =>
          simp [hch] at hr
          subst hr
          exact applyStateChanges_frame _ s

/-! ## Terminal-path lemmas -/

/-- `resolveCompletion` can only settle the promise with success. -/
theorem resolveCompletion_promise (s : SubjectState) :
    promiseRejected (resolveCompletion s) = promiseRejected s := by
  unfold resolveCompletion promiseRejected
  cases hc : s.completion with
  | none => simp [hc, SubjectState.emit]
  | some o => simp [hc]

/-- `resolveCompletion` leaves observers and memory alone; its trace gains
at most the resolution event, and only when the promise was unsettled. -/
theorem resolveCompletion_fields (s : SubjectState) :
    (resolveCompletion s).observers = s.observers ∧
    (resolveCompletion s).memory = s.memory ∧
    (resolveCompletion s).trace = s.trace ++
      (if s.completion = none then [Event.resolveCompletion] else []) := by
  unfold resolveCompletion
  cases hc : s.completion with
  | none => simp [hc, SubjectState.emit]
  | some o => simp [hc]

/-- Spec of the catch handler when observers are present and the promise is
still pending: error signals to every observer, observer set cleared,
forced cleanup, then promise resolution — in exactly that trace order. -/
theorem deliverError_spec (e : ErrName) (s : SubjectState) (obs : List Nat)
    (hobs : s.observers = some obs) (hcmp : s.completion = none) :
    deliverError e s =
      { s with observers := none,
               completion := some none,
               memory := s.memory.map (cleanCell true),
               trace := s.trace ++ obs.map (fun o => Event.errorSig o e)
                 ++ cleanEvents true 0 s.memory ++ [Event.resolveCompletion] } := by
  simp [deliverError, hobs, SubjectState.emitAll, SubjectState.emit,
    cleanUpEffects_spec, resolveCompletion, hcmp, List.append_assoc]

/-- Spec of `complete` when observers are present and the promise is still
pending: complete signals to every observer, observer set cleared, forced
cleanup, then promise resolution — in exactly that trace order. -/
theorem complete_spec (s : SubjectState) (obs : List Nat)
    (hobs : s.observers = some obs) (hcmp : s.completion = none) :
    complete s =
      { s with observers := none,
               completion := some none,
               memory := s.memory.map (cleanCell true),
               trace := s.trace ++ obs.map Event.completeSig
                 ++ cleanEvents true 0 s.memory ++ [Event.resolveCompletion] } := by
  simp [complete, hobs, SubjectState.emitAll, SubjectState.emit,
    cleanUpEffects_spec, resolveCompletion, hcmp, List.append_assoc]

/-- `complete` on a subject whose observer set is gone is a no-op. -/
theorem complete_dead (s : SubjectState) (hobs : s.observers = none) :
    complete s = s := by
  unfold complete
  rw [hobs]

/-- The catch handler on a subject whose observer set is gone is a no-op. -/
theorem deliverError_dead (e : ErrName) (s : SubjectState)
    (hobs : s.observers = none) : deliverError e s = s := by
  unfold deliverError
  rw [hobs]

/-- After `complete` on a live subject, the observer set is gone. -/
theorem complete_observers (s : SubjectState) :
    (complete s).observers = none ∨ complete s = s := by
  cases hobs : s.observers with
  | none => exact Or.inr (complete_dead s hobs)
  | some obs =>
      left
      simp only [complete, hobs, cleanUpEffects_spec]
      rw [(resolveCompletion_fields _).1]

/-- After `deliverError` on a live subject, the observer set is gone. -/
theorem deliverError_observers (e : ErrName) (s : SubjectState)
    (obs : List Nat) (hobs : s.observers = some obs) :
    (deliverError e s).observers = none := by
  simp only [deliverError, hobs, cleanUpEffects_spec]
  rw [(resolveCompletion_fields _).1]

/-- `deliverError` never rejects the promise. -/
theorem deliverError_promise (e : ErrName) (s : SubjectState) :
    promiseRejected (deliverError e s) = promiseRejected s := by
  cases hobs : s.observers with
  | none => rw [deliverError_dead e s hobs]
  | some obs =>
      simp only [deliverError, hobs, cleanUpEffects_spec]
      rw [resolveCompletion_promise]
      rfl

/-- `complete` never rejects the promise. -/
theorem complete_promise (s : SubjectState) :
    promiseRejected (complete s) = promiseRejected s := by
  cases hobs : s.observers with
  | none => rw [complete_dead s hobs]
  | some obs =>
      simp only [complete, hobs, cleanUpEffects_spec]
      rw [resolveCompletion_promise]
      rfl

/-- One scheduled run task never rejects the promise. -/
theorem runTask_promise (fuel : Nat) (h : MainHook) (s s' : SubjectState)
    (hr : runTask fuel h s = some s') :
    promiseRejected s' = promiseRejected s := by
  unfold runTask at hr
  cases hc : runTaskCore fuel h s with
  | none => rw [hc] at hr; simp at hr
  | some r =>
      rw [hc] at hr
      have hf := runTaskCore_frame fuel h s r hc
      cases r with
      | ok u s1 =>
          simp at hr
          subst hr
          simp only [ER.st] at hf
          simp [promiseRejected, hf.2.1]
      | err e s1 =>
          simp at hr
          subst hr
          simp only [ER.st] at hf
          rw [deliverError_promise]
          simp [promiseRejected, hf.2.1]

/-- Draining the microtask queue never rejects the promise. -/
theorem drain_promise :
    ∀ (fuel : Nat) (h : MainHook) (s s' : SubjectState),
      drain fuel h s = some s' → promiseRejected s' = promiseRejected s := by
  intro fuel
  induction fuel with
  | zero =>
      intro h s s' hr
      unfold drain at hr
      cases ht : (s.tasks == 0) <;> simp [ht] at hr
      subst hr; rfl
  | succ fuel ih =>
      intro h s s' hr
      unfold drain at hr
      cases ht : (s.tasks == 0) with
      | true => simp [ht] at hr; subst hr; rfl
      | false =>
          simp only [ht, Bool.false_eq_true, if_false, ite_false] at hr
          cases hrt : runTask (fuel + 1) h { s with tasks := s.tasks - 1 } with
          | none => rw [hrt] at hr; simp at hr
          | some s2 =>
              rw [hrt] at hr
              simp only [] at hr
              have h1 := runTask_promise (fuel + 1) h _ s2 hrt
              have h2 := ih h s2 s' hr
              rw [h2, h1]
              rfl

/-- `subscribe` leaves the promise alone. -/
theorem subscribe_promise (o : Nat) (s : SubjectState) :
    promiseRejected (subscribe o s) = promiseRejected s := by
  unfold subscribe promiseRejected
  cases s.observers <;> simp

/-! ## A subject with no observer set stays silent -/

/-- `cleanUpEffects` as a quiet-event trace frame. -/
theorem cleanUpEffects_qframe (force : Bool) (s : SubjectState) :
    traceFrame isQuietEvent s (cleanUpEffects force s) := by
  rw [cleanUpEffects_spec]
  refine ⟨rfl, rfl, cleanEvents force 0 s.memory, rfl, ?_⟩
  intro e he
  have := cleanEvents_cleanup force s.memory 0 e he
  cases e <;> simp_all [isCleanupEvent, isQuietEvent]

/-- The inner loop on a dead subject only clears queues: no events, no
errors. -/
theorem execLoop_dead :
    ∀ (fuel : Nat) (h : MainHook) (s : SubjectState) (r : ER Unit),
      s.observers = none → execLoop fuel h s = some r →
      ∃ s', r = .ok () s' ∧ s'.observers = none ∧
        s'.completion = s.completion ∧ s'.trace = s.trace := by
  intro fuel
  induction fuel with
  | zero => intro h s r hobs hr; simp [execLoop] at hr
  | succ fuel ih =>
      intro h s r hobs hr
      rw [execLoop] at hr
      have hobs2 : ((applyStateChanges s).2).observers = none := by
        rw [(applyStateChanges_fields s).1, hobs]
      cases hch : (applyStateChanges s).1 with
      | false =>
          simp [hch] at hr
          subst hr
          exact ⟨_, rfl, hobs2, (applyStateChanges_fields s).2.1,
            (applyStateChanges_fields s).2.2.1⟩
      | true =>
          simp only [hch] at hr
          simp at hr
          rw [execute_dead h _ hobs2] at hr
          simp only [] at hr
          obtain ⟨s', hr', ho', hc', htr'⟩ := ih h _ r hobs2 hr
          exact ⟨s', hr', ho', hc'.trans (applyStateChanges_fields s).2.1,
            htr'.trans (applyStateChanges_fields s).2.2.1⟩

/-- One pass on a dead subject: the main hook is never executed, nothing is
delivered; only cleanups and effect runs can still happen. -/
theorem passLoop_dead :
    ∀ (fuel : Nat) (h : MainHook) (s : SubjectState) (r : ER Unit),
      s.observers = none → passLoop fuel h s = some r →
      traceFrame isQuietEvent s r.st := by
  intro fuel
  induction fuel with
  | zero => intro h s r hobs hr; simp [passLoop] at hr
  | succ fuel ih =>
      intro h s r hobs hr
      rw [passLoop] at hr
      rw [execute_dead h s hobs] at hr
      simp only [] at hr
      cases hel : execLoop (fuel + 1) h s with
      | none => rw [hel] at hr; simp at hr
      | some r2 =>
          rw [hel] at hr
          obtain ⟨s2, hr2, ho2, hc2, htr2⟩ :=
            execLoop_dead (fuel + 1) h s r2 hobs hel
          subst hr2
          simp only [] at hr
          have f1 : traceFrame isQuietEvent s s2 :=
            ⟨ho2.trans hobs.symm, hc2, [], by simp [htr2], by simp⟩
          have f2 := cleanUpEffects_qframe false s2
          have ho3 : (cleanUpEffects false s2).observers = none := by
            rw [cleanUpEffects_spec]; exact ho2
          have htf := triggerEffectsFrom_frame
            (cleanUpEffects false s2).memory.length 0 (cleanUpEffects false s2)
          cases htr : triggerEffects (cleanUpEffects false s2) with
          | err e s4 =>
              rw [show triggerEffects (cleanUpEffects false s2)
                  = triggerEffectsFrom 0 (cleanUpEffects false s2).memory.length
                      (cleanUpEffects false s2) from rfl] at htr
              rw [htr] at htf
              simp only [ER.st] at htf
              simp [triggerEffects, htr] at hr
              subst hr
              exact traceFrame_trans f1 (traceFrame_trans f2 htf.1)
          | ok u3 s4 =>
              rw [show triggerEffects (cleanUpEffects false s2)
                  = triggerEffectsFrom 0 (cleanUpEffects false s2).memory.length
                      (cleanUpEffects false s2) from rfl] at htr
              rw [htr] at htf
              simp only [ER.st] at htf
              simp only [triggerEffects, htr] at hr
              have base : traceFrame isQuietEvent s s4 :=
                traceFrame_trans f1 (traceFrame_trans f2 htf.1)
              have hobs4 : s4.observers = none := by
                rw [htf.1.1, ho3]
              have hobs5 : ((applyStateChanges s4).2).observers = none := by
                rw [(applyStateChanges_fields s4).1, hobs4]
              cases hch : (applyStateChanges s4).1 with
              | true =>
                  simp [hch] at hr
                  exact traceFrame_trans base
                    (traceFrame_trans (applyStateChanges_frame _ s4)
                      (ih h (applyStateChanges s4).2 r hobs5 hr))
              | false =>
                  simp [hch] at hr
                  subst hr
                  exact traceFrame_trans base (applyStateChanges_frame _ s4)

/-- One scheduled run task on a dead subject: observers stay gone, the
promise is untouched, and only quiet events can be appended — in
particular no execution of the main hook and no consumer callback. -/
theorem runTask_dead (fuel : Nat) (h : MainHook) (s s' : SubjectState)
    (hobs : s.observers = none) (hr : runTask fuel h s = some s') :
    s'.observers = none ∧ s'.completion = s.completion ∧
    ∃ tr, s'.trace = s.trace ++ tr ∧ ∀ e ∈ tr, isQuietEvent e = true := by
  unfold runTask at hr
  have hcore : ∀ r : ER Unit, runTaskCore fuel h s = some r →
      traceFrame isQuietEvent s r.st := by
    intro r hc
    rw [runTaskCore] at hc
    cases hma : s.memoryAllocated with
    | false =>
        simp [hma] at hc
        exact passLoop_dead fuel h s r hobs hc
    | true =>
        simp only [hma, Bool.not_true] at hc
        have hobs2 : ((applyStateChanges s).2).observers = none := by
          rw [(applyStateChanges_fields s).1, hobs]
        cases hch : (applyStateChanges s).1 with
        | true =>
            simp [hch] at hc
            exact traceFrame_trans (applyStateChanges_frame _ s)
              (passLoop_dead fuel h (applyStateChanges s).2 r hobs2 hc)
        | false =>
            simp [hch] at hc
            subst hc
            exact applyStateChanges_frame _ s
  cases hc : runTaskCore fuel h s with
  | none => rw [hc] at hr; simp at hr
  | some r =>
      rw [hc] at hr
      have hf := hcore r hc
      cases r with
      | ok u s1 =>
          simp at hr
          subst hr
          exact ⟨hf.1.trans hobs, hf.2.1, hf.2.2⟩
      | err e s1 =>
          simp at hr
          subst hr
          simp only [ER.st] at hf
          rw [deliverError_dead e s1 (hf.1.trans hobs)]
          exact ⟨hf.1.trans hobs, hf.2.1, hf.2.2⟩

/-- Draining the queue of a dead subject: observers stay gone, the promise
is untouched, no consumer callback and no main-hook execution happens. -/
theorem drain_dead :
    ∀ (fuel : Nat) (h : MainHook) (s s' : SubjectState),
      s.observers = none → drain fuel h s = some s' →
      s'.observers = none ∧ s'.completion = s.completion ∧
      ∃ tr, s'.trace = s.trace ++ tr ∧ ∀ e ∈ tr, isQuietEvent e = true := by
  intro fuel
  induction fuel with
  | zero =>
      intro h s s' hobs hr
      unfold drain at hr
      cases ht : (s.tasks == 0) <;> simp [ht] at hr
      subst hr
      exact ⟨hobs, rfl, [], by simp, by simp⟩
  | succ fuel ih =>
      intro h s s' hobs hr
      unfold drain at hr
      cases ht : (s.tasks == 0) with
      | true =>
          simp [ht] at hr
          subst hr
          exact ⟨hobs, rfl, [], by simp, by simp⟩
      | false =>
          simp only [ht, Bool.false_eq_true, if_false, ite_false] at hr
          cases hrt : runTask (fuel + 1) h { s with tasks := s.tasks - 1 } with
          | none => rw [hrt] at hr; simp at hr
          | some s2 =>
              rw [hrt] at hr
              simp only [] at hr
              obtain ⟨ho1, hc1, tr1, htr1, ha1⟩ :=
                runTask_dead (fuel + 1) h { s with tasks := s.tasks - 1 } s2
                  hobs hrt
              obtain ⟨ho2, hc2, tr2, htr2, ha2⟩ := ih h s2 s' ho1 hr
              refine ⟨ho2, hc2.trans hc1, tr1 ++ tr2, ?_, ?_⟩
              · rw [htr2, htr1]
                simp [List.append_assoc]
              · intro e he
                rcases List.mem_append.1 he with h1 | h1
                · exact ha1 e h1
                · exact ha2 e h1

/-! # Claims -/

/-- C7: calling `stop` (single-consumer) or `complete` (multicast) twice
in succession is observationally equivalent to calling it once — the
second call returns the state of the first unchanged, so each observer's
complete callback, the forced cleanup and the completion signal happen at
most once and no duplicate signal is ever delivered. -/
theorem claim7_idempotent_stop_complete :
    (∀ s : SubjectState, complete (complete s) = complete s)
  ∧ (∀ (e e' : Option ErrName) (s : RunnerState),
      Runner.stop e' (Runner.stop e s) = Runner.stop e s) := by
  constructor
  · intro s
    rcases complete_observers s with h | h
    · exact complete_dead _ h
    · rw [h]
      exact h
  · intro e e' s
    by_cases hs : s.stopped
    · simp [Runner.stop, hs]
    · rw [show Runner.stop e s
          = (Runner.cleanUpEffects true { s with stopped := true }).emit
              (.onStopped e) from by simp [Runner.stop, hs]]
      simp [Runner.stop, Runner.cleanUpEffects, RunnerState.emit]

/-- C10: the multicast completion promise always resolves and never
rejects — no engine path settles it with an error, not even the fatal one;
the fatal error itself is conveyed to consumers through the subscribed
observers' error callbacks, after which the promise resolves with
success. -/
theorem claim10_completion_never_rejects :
    (promiseRejected initialSubject = false)
  ∧ (∀ (o : Nat) (s : SubjectState),
      promiseRejected (subscribe o s) = promiseRejected s)
  ∧ (∀ s : SubjectState, promiseRejected (complete s) = promiseRejected s)
  ∧ (∀ (e : ErrName) (s : SubjectState),
      promiseRejected (deliverError e s) = promiseRejected s)
  ∧ (∀ (fuel : Nat) (h : MainHook) (s s' : SubjectState),
      drain fuel h s = some s' → promiseRejected s' = promiseRejected s)
  ∧ (∀ (e : ErrName) (s : SubjectState) (obs : List Nat),
      s.observers = some obs → s.completion = none →
      (deliverError e s).trace = s.trace ++ obs.map (fun o => Event.errorSig o e)
        ++ cleanEvents true 0 s.memory ++ [Event.resolveCompletion] ∧
      (deliverError e s).completion = some none) := by
  refine ⟨rfl, subscribe_promise, complete_promise, deliverError_promise,
    drain_promise, ?_⟩
  intro e s obs hobs hcmp
  rw [deliverError_spec e s obs hobs hcmp]
  exact ⟨rfl, rfl⟩

/-- Witness for C10 at concrete inputs: an error delivered on the fresh
subject resolves (never rejects) the promise and appends exactly the
resolution event; a drained queue preserves the unrejected promise. -/
theorem claim10_witness :
    ((deliverError (.custom 3) initialSubject).trace
        = initialSubject.trace
          ++ ([] : List Nat).map (fun o => Event.errorSig o (.custom 3))
          ++ cleanEvents true 0 initialSubject.memory
          ++ [Event.resolveCompletion] ∧
      (deliverError (.custom 3) initialSubject).completion = some none)
  ∧ promiseRejected initialSubject = promiseRejected initialSubject :=
  ⟨claim10_completion_never_rejects.2.2.2.2.2 (.custom 3) initialSubject []
      rfl rfl,
   claim10_completion_never_rejects.2.2.2.2.1 1 (.ret .undef) initialSubject
      initialSubject rfl⟩

/-- C8: a subscriber attaching after the observer set is gone (fatal error
or completion) is accepted — the call returns, the unsubscribe handle is a
valid no-op — but that observer never receives a `next`, `error` or
`complete` callback and its subscription never triggers another execution
of the main hook. -/
theorem claim8_late_subscription (s : SubjectState) (o : Nat)
    (hobs : s.observers = none) :
    subscribe o s = { s with tasks := s.tasks + 1 } ∧
    (subscribe o s).observers = none ∧
    unsubscribe o (subscribe o s) = subscribe o s ∧
    ∀ (fuel : Nat) (h : MainHook) (s' : SubjectState),
      drain fuel h (subscribe o s) = some s' →
      ∃ tr, s'.trace = s.trace ++ tr ∧
        ∀ e ∈ tr, isConsumerEvent e = false ∧ isExecuted e = false := by
  have h1 : subscribe o s = { s with tasks := s.tasks + 1 } := by
    simp [subscribe, hobs]
  have h2 : (subscribe o s).observers = none := by rw [h1]; exact hobs
  refine ⟨h1, h2, ?_, ?_⟩
  · simp [unsubscribe, h2]
  · intro fuel h s' hdr
    obtain ⟨_, _, tr, htr, hq⟩ := drain_dead fuel h (subscribe o s) s' h2 hdr
    refine ⟨tr, ?_, ?_⟩
    · rw [htr, h1]
    · intro e he
      have := hq e he
      cases e <;> simp_all [isQuietEvent, isConsumerEvent, isExecuted]

/-- Witness for C8: subscribing to a dead subject and draining three
microtasks with a trivial hook produces no consumer callback and no
execution. -/
theorem claim8_late_subscription_witness :
    (subscribe 0 deadSubject).observers = none ∧
    ∃ tr, deadSubject.trace = deadSubject.trace ++ tr ∧
      ∀ e ∈ tr, isConsumerEvent e = false ∧ isExecuted e = false :=
  ⟨(claim8_late_subscription deadSubject 0 rfl).2.1,
   (claim8_late_subscription deadSubject 0 rfl).2.2.2 3 (.ret .undef)
     deadSubject rfl⟩

/-- C3: an update whose value is reference-identical to the cell's current
state contributes nothing — the value is kept and the changed flag is not
set (first conjunct); a non-identical value replaces the state and sets the
flag (second conjunct, the sole de-duplication rule); when the pending
changes of an allocated instance produce no actual change, the scheduled
run task re-executes nothing and delivers nothing (third conjunct); setting
a cell to its own current value three times delivers exactly one result
(fourth conjunct). -/
theorem claim3_state_dedup :
    (∀ (v : JSValue) (c : Bool) (ch : StateChange) (rest : List StateChange),
        evalChange ch v = v →
        applyChangesToState v c (ch :: rest) = applyChangesToState v c rest)
  ∧ (∀ (v : JSValue) (c : Bool) (ch : StateChange) (rest : List StateChange),
        evalChange ch v ≠ v →
        applyChangesToState v c (ch :: rest)
          = applyChangesToState (evalChange ch v) true rest)
  ∧ (∀ (fuel : Nat) (h : MainHook) (s : SubjectState),
        s.memoryAllocated = true → (applyStateChanges s).1 = false →
        runTask fuel h s = some ((applyStateChanges s).2) ∧
        ((applyStateChanges s).2).trace = s.trace)
  ∧ (drain 10 c3Hook (subscribe 0 initialSubject)).map deliveredValues
      = some [JSValue.num 0] := by
  refine ⟨?_, ?_, ?_, ?_⟩
  · intro v c ch rest hch
    simp only [applyChangesToState]
    simp [objectIs, hch]
  · intro v c ch rest hch
    have hne : ¬(v = evalChange ch v) := fun hh => hch hh.symm
    simp only [applyChangesToState]
    simp [objectIs, hne]
  · intro fuel h s hma hch
    refine ⟨?_, rfl⟩
    unfold runTask runTaskCore
    rw [hma]
    simp [hch]
  · rfl

/-- Witness for C3 at concrete inputs: the identical change `0 → 0` is
dropped, the change `0 → 1` replaces, and firing the pending task of a
state whose only queued change is identical re-executes nothing. -/
theorem claim3_state_dedup_witness :
    applyChangesToState (.num 0) false [.val (.num 0)]
        = applyChangesToState (.num 0) false [] ∧
    applyChangesToState (.num 0) false [.val (.num 1)]
        = applyChangesToState (.num 1) true [] ∧
    (runTask 5 (.ret .undef) dedupState = some ((applyStateChanges dedupState).2) ∧
      ((applyStateChanges dedupState).2).trace = dedupState.trace) :=
  ⟨claim3_state_dedup.1 (.num 0) false (.val (.num 0)) [] rfl,
   claim3_state_dedup.2.1 (.num 0) false (.val (.num 1)) [] (by decide),
   claim3_state_dedup.2.2.1 5 (.ret .undef) dedupState rfl (by decide)⟩

/-- `Runner.cleanUpEffects` is the same per-cell map as the subject's. -/
theorem runnerCleanUpEffects_spec (force : Bool) (s : RunnerState) :
    Runner.cleanUpEffects force s =
      { s with memory := s.memory.map (cleanCell force),
               trace := s.trace ++ cleanEvents force 0 s.memory } := by
  simp [Runner.cleanUpEffects, cleanUpCells_eq]

/-- C2 counterexample: run a hook that installs an effect cleanup, then
call `complete`.  In the resulting (reachable) trace the observer's
complete callback precedes the forced cleanup, so the claim that forced
cleanup finishes before the terminal signal reaches *any* consumer is
false on the multicast subject. -/
theorem claim2_counterexample :
    (drain 20 c2Hook (subscribe 0 initialSubject)).map
        (fun s => cleanupBeforeSignals (complete s).trace) = some false := by
  rfl

/-- C2 as amended: on the multicast subject the observer `complete`/`error`
callbacks are invoked *before* the forced cleanup, and the forced cleanup
completes before the completion promise resolves; on the single-consumer
runner the forced cleanup does complete before the stop signal reaches the
listener. -/
theorem claim2_amended_cleanup_ordering :
    (∀ (s : SubjectState) (obs : List Nat),
        s.observers = some obs → s.completion = none →
        ∃ ev, (complete s).trace
            = s.trace ++ obs.map Event.completeSig ++ ev
              ++ [Event.resolveCompletion]
          ∧ ∀ e ∈ ev, isCleanupEvent e = true)
  ∧ (∀ (er : ErrName) (s : SubjectState) (obs : List Nat),
        s.observers = some obs → s.completion = none →
        ∃ ev, (deliverError er s).trace
            = s.trace ++ obs.map (fun o => Event.errorSig o er) ++ ev
              ++ [Event.resolveCompletion]
          ∧ ∀ e ∈ ev, isCleanupEvent e = true)
  ∧ (∀ (er : Option ErrName) (s : RunnerState),
        s.stopped = false →
        ∃ ev, (Runner.stop er s).trace
            = s.trace ++ ev ++ [Event.onStopped er]
          ∧ ∀ e ∈ ev, isCleanupEvent e = true) := by
  refine ⟨?_, ?_, ?_⟩
  · intro s obs hobs hcmp
    rw [complete_spec s obs hobs hcmp]
    exact ⟨cleanEvents true 0 s.memory, rfl, cleanEvents_cleanup true s.memory 0⟩
  · intro er s obs hobs hcmp
    rw [deliverError_spec er s obs hobs hcmp]
    exact ⟨cleanEvents true 0 s.memory, rfl, cleanEvents_cleanup true s.memory 0⟩
  · intro er s hs
    rw [show Runner.stop er s
        = (Runner.cleanUpEffects true { s with stopped := true }).emit
            (.onStopped er) from by simp [Runner.stop, hs]]
    rw [runnerCleanUpEffects_spec]
    exact ⟨cleanEvents true 0 s.memory, by simp [RunnerState.emit], 
      cleanEvents_cleanup true s.memory 0⟩

/-- Witness for the amended C2 at concrete inputs: completing the fresh
subject and stopping the fresh runner produce the stated trace shapes. -/
theorem claim2_amended_witness :
    (∃ ev, (complete initialSubject).trace
        = initialSubject.trace ++ ([] : List Nat).map Event.completeSig ++ ev
          ++ [Event.resolveCompletion]
      ∧ ∀ e ∈ ev, isCleanupEvent e = true)
  ∧ (∃ ev, (Runner.stop (some (.custom 1)) initialRunner).trace
        = initialRunner.trace ++ ev ++ [Event.onStopped (some (.custom 1))]
      ∧ ∀ e ∈ ev, isCleanupEvent e = true) :=
  ⟨claim2_amended_cleanup_ordering.1 initialSubject [] rfl rfl,
   claim2_amended_cleanup_ordering.2.2 (some (.custom 1)) initialRunner rfl⟩

/-- Every cell the state-change pass produces has an empty pending queue:
all updates enqueued before the pass are consumed by that single pass. -/
theorem applyStep_queues :
    ∀ (mem : List MemoryCell) (acc : List MemoryCell × Bool),
      (∀ c ∈ acc.1, cellQueueEmpty c = true) →
      ∀ c ∈ (mem.foldl applyStep acc).1, cellQueueEmpty c = true := by
  intro mem
  induction mem with
  | nil => intro acc hacc c hc; exact hacc c hc
  | cons cell rest ih =>
      intro acc hacc c hc
      refine ih (applyStep acc cell) ?_ c hc
      intro c2 hc2
      cases cell with
      | stateCell v chs =>
          simp only [applyStep, List.mem_append] at hc2
          rcases hc2 with h2 | h2
          · exact hacc c2 h2
          · simp only [List.mem_singleton] at h2
            subst h2
            rfl
      | effectCell o eff deps cu =>
          simp only [applyStep, List.mem_append] at hc2
          rcases hc2 with h2 | h2
          · exact hacc c2 h2
          · simp only [List.mem_singleton] at h2
            subst h2
            rfl
      | memoCell v d =>
          simp only [applyStep, List.mem_append] at hc2
          rcases hc2 with h2 | h2
          · exact hacc c2 h2
          · simp only [List.mem_singleton] at h2
            subst h2
            rfl

/-- C1: the compounding worked example — a hook over one state cell that
sets 0→1 synchronously, 1→2 inside an effect, and on state 2 enqueues the
replacement 3 followed by the updater `previous + 1` — delivers exactly
the results 0, 1, 2, 4 in that order; the intermediate 3 is never
delivered.  More generally, one state-change pass consumes every queued
update of every cell (second conjunct), so synchronous updates compound
into at most one re-invocation pass. -/
theorem claim1_compounding :
    ((drain 20 c1Hook (subscribe 0 initialSubject)).map deliveredValues
        = some [JSValue.num 0, JSValue.num 1, JSValue.num 2, JSValue.num 4])
  ∧ (∀ s : SubjectState,
      ∀ c ∈ ((applyStateChanges s).2).memory, cellQueueEmpty c = true) := by
  constructor
  · rfl
  · intro s c hc
    exact applyStep_queues s.memory ([], false) (by simp) c hc

/-- In this model `Object.is` is equality, so element-wise dependency
comparison of two present lists succeeds exactly on equal lists
(unequal lengths compare unequal). -/
theorem areHookInputsEqual_iff :
    ∀ A B : List JSValue, areHookInputsEqual (some A) (some B) = true ↔ A = B := by
  intro A
  induction A with
  | nil =>
      intro B
      cases B with
      | nil => simp [areHookInputsEqual]
      | cons b bs => simp [areHookInputsEqual]
  | cons a as ih =>
      intro B
      cases B with
      | nil => simp [areHookInputsEqual]
      | cons b bs =>
          have := ih bs
          simp [areHookInputsEqual, objectIs] at this ⊢
          constructor
          · rintro ⟨hlen, hab, hall⟩
            exact ⟨hab, this.mp ⟨hlen, hall⟩⟩
          · rintro ⟨hab, hasbs⟩
            subst hasbs
            exact ⟨rfl, hab, (this.mpr rfl).2⟩

/-- For equal-length dependency lists, the comparison fails exactly when
some position holds non-identical elements. -/
theorem areHookInputsEqual_false_iff (A B : List JSValue)
    (hlen : A.length = B.length) :
    areHookInputsEqual (some A) (some B) = false ↔
      ∃ i, i < A.length ∧ A[i]? ≠ B[i]? := by
  rw [Bool.eq_false_iff, Ne, areHookInputsEqual_iff]
  constructor
  · intro hne
    by_contra hno
    push_neg at hno
    apply hne
    apply List.ext_getElem?
    intro i
    by_cases hi : i < A.length
    · exact hno i hi
    · rw [List.getElem?_eq_none (by omega), List.getElem?_eq_none (by omega)]
  · rintro ⟨i, hi, hne⟩ hAB
    subst hAB
    exact hne rfl

/-- `useEffect` on a settled effect cell (not outdated): the dependency
comparison alone decides between leaving the cell untouched and re-storing
the effect with the outdated mark. -/
theorem useEffect_settled (s : SubjectState) (eff eff0 : EffectFn)
    (A B : List JSValue) (cu : Option CleanUpFn)
    (ha : s.active = true)
    (hcell : s.memory[s.memoryPointer]?
      = some (.effectCell false eff0 (some A) cu)) :
    (areHookInputsEqual (some A) (some B) = true →
      useEffect eff (some B) s
        = .ok () { s with memoryPointer := s.memoryPointer + 1 }) ∧
    (areHookInputsEqual (some A) (some B) = false →
      useEffect eff (some B) s = .ok ()
        { s with
          memory :=
            s.memory.set s.memoryPointer (.effectCell true eff (some B) cu),
          memoryPointer := s.memoryPointer + 1 }) := by
  have hg : getMemoryCell .effectK s
      = .ok (some (.effectCell false eff0 (some A) cu)) s := by
    simp [getMemoryCell, hcell, MemoryCell.kind]
  constructor
  · intro heq
    simp [useEffect, ha, hg, heq]
  · intro heq
    simp [useEffect, ha, hg, heq]

/-- `useMemo` on an existing memo cell: the dependency comparison alone
decides between returning the cached value (without invoking the thunk —
no `memoComputed` event, cell untouched) and recomputing. -/
theorem useMemo_settled (s : SubjectState) (v oldV : JSValue)
    (A B : List JSValue)
    (ha : s.active = true)
    (hcell : s.memory[s.memoryPointer]? = some (.memoCell oldV A)) :
    (areHookInputsEqual (some A) (some B) = true →
      useMemo v B s = .ok oldV { s with memoryPointer := s.memoryPointer + 1 }) ∧
    (areHookInputsEqual (some A) (some B) = false →
      useMemo v B s = .ok v
        { s with trace := s.trace ++ [Event.memoComputed s.memoryPointer],
                 memory := s.memory.set s.memoryPointer (.memoCell v B),
                 memoryPointer := s.memoryPointer + 1 }) := by
  have hg : getMemoryCell .memoK s = .ok (some (.memoCell oldV A)) s := by
    simp [getMemoryCell, hcell, MemoryCell.kind]
  constructor
  · intro heq
    simp [useMemo, ha, hg, heq]
  · intro heq
    simp [useMemo, ha, hg, heq, SubjectState.emit]

/-- C4: for stored dependencies `A` and supplied dependencies `B` of equal
length, re-evaluation — marking a settled effect cell outdated with the new
effect stored, or recomputing a memo value — happens exactly when some
index holds elements that are not reference-identical under the
`Object.is` rule; when every position is identical the effect cell is left
untouched and the memo returns its cached value without invoking the
thunk.  Under that rule `NaN` equals `NaN`, and the same elements in a
different order do trigger re-evaluation. -/
theorem claim4_dependency_identity :
    (∀ (A B : List JSValue), A.length = B.length →
        (areHookInputsEqual (some A) (some B) = false ↔
          ∃ i, i < A.length ∧ A[i]? ≠ B[i]?))
  ∧ (∀ (s : SubjectState) (eff eff0 : EffectFn) (A B : List JSValue)
        (cu : Option CleanUpFn),
        s.active = true →
        s.memory[s.memoryPointer]?
          = some (.effectCell false eff0 (some A) cu) →
        ((∃ i, i < A.length ∧ A[i]? ≠ B[i]?) → A.length = B.length →
          useEffect eff (some B) s = .ok ()
            { s with
              memory :=
                s.memory.set s.memoryPointer (.effectCell true eff (some B) cu),
              memoryPointer := s.memoryPointer + 1 }) ∧
        ((∀ i : Nat, A[i]? = B[i]?) →
          useEffect eff (some B) s
            = .ok () { s with memoryPointer := s.memoryPointer + 1 }))
  ∧ (∀ (s : SubjectState) (v oldV : JSValue) (A B : List JSValue),
        s.active = true →
        s.memory[s.memoryPointer]? = some (.memoCell oldV A) →
        ((∃ i, i < A.length ∧ A[i]? ≠ B[i]?) → A.length = B.length →
          useMemo v B s = .ok v
            { s with trace := s.trace ++ [Event.memoComputed s.memoryPointer],
                     memory := s.memory.set s.memoryPointer (.memoCell v B),
                     memoryPointer := s.memoryPointer + 1 }) ∧
        ((∀ i : Nat, A[i]? = B[i]?) →
          useMemo v B s
            = .ok oldV { s with memoryPointer := s.memoryPointer + 1 }))
  ∧ (areHookInputsEqual (some [.str "a", .str "b", .str "c"])
        (some [.str "a", .str "c", .str "b"]) = false
      ∧ areHookInputsEqual (some [.nan]) (some [.nan]) = true) := by
  refine ⟨areHookInputsEqual_false_iff, ?_, ?_, by decide, by decide⟩
  · intro s eff eff0 A B cu ha hcell
    constructor
    · intro hdiff hlen
      exact (useEffect_settled s eff eff0 A B cu ha hcell).2
        ((areHookInputsEqual_false_iff A B hlen).mpr hdiff)
    · intro hsame
      have hAB : A = B := List.ext_getElem? hsame
      subst hAB
      exact (useEffect_settled s eff eff0 A A cu ha hcell).1
        ((areHookInputsEqual_iff A A).mpr rfl)
  · intro s v oldV A B ha hcell
    constructor
    · intro hdiff hlen
      exact (useMemo_settled s v oldV A B ha hcell).2
        ((areHookInputsEqual_false_iff A B hlen).mpr hdiff)
    · intro hsame
      have hAB : A = B := List.ext_getElem? hsame
      subst hAB
      exact (useMemo_settled s v oldV A A ha hcell).1
        ((areHookInputsEqual_iff A A).mpr rfl)

/-- Witness for C4 at concrete inputs: on the settled effect cell with
stored `['a','b','c']`, supplying the reordered `['a','c','b']` re-stores
the effect outdated; on the memo cell with stored `[NaN]`, supplying
`[NaN]` returns the cached 42 without recomputation. -/
theorem claim4_dependency_identity_witness :
    useEffect ⟨[], none, none⟩
        (some [.str "a", .str "c", .str "b"]) c4EffState
      = .ok () { c4EffState with
          memory := c4EffState.memory.set c4EffState.memoryPointer
            (.effectCell true ⟨[], none, none⟩
              (some [.str "a", .str "c", .str "b"]) none),
          memoryPointer := c4EffState.memoryPointer + 1 } ∧
    useMemo (.num 99) [.nan] c4MemoState
      = .ok (.num 42)
          { c4MemoState with memoryPointer := c4MemoState.memoryPointer + 1 } :=
  ⟨((claim4_dependency_identity.2.1 c4EffState ⟨[], none, none⟩ ⟨[], none, none⟩
      [.str "a", .str "b", .str "c"] [.str "a", .str "c", .str "b"] none
      rfl rfl).1 (by decide) (by decide)),
   ((claim4_dependency_identity.2.2.1 c4MemoState (.num 99) (.num 42)
      [.nan] [.nan] rfl rfl).2 (fun i => rfl))⟩

/-- C5: once memory is allocated, a changed hook-call shape is a fatal
shape violation: a call beyond the established length throws the count
error, a call finding a cell of another kind throws the order error, a
body ending with the pointer off the memory length throws the count error;
the violation is delivered to every observer as the terminal error signal,
the observer set is cleared, and afterwards no invocation of the main hook
ever happens again.  The final conjunct runs the shrinking-shape example
end to end. -/
theorem claim5_shape_violation :
    (∀ (s : SubjectState) (k : CellKind),
        s.memoryAllocated = true → s.memory[s.memoryPointer]? = none →
        getMemoryCell k s = .err .numberOfHookCalls s)
  ∧ (∀ (s : SubjectState) (k : CellKind) (c : MemoryCell),
        s.memory[s.memoryPointer]? = some c → c.kind ≠ k →
        getMemoryCell k s = .err .orderOfHookCalls s)
  ∧ (∀ (h : MainHook) (s : SubjectState) (obs : List Nat) (v : JSValue)
        (s1 : SubjectState),
        s.observers = some obs →
        runHook h { s with active := true, memoryPointer := 0 } = .ok v s1 →
        s1.memoryPointer ≠ s1.memory.length →
        execute h s = .err .numberOfHookCalls { s1 with active := false })
  ∧ (∀ (e : ErrName) (s : SubjectState) (obs : List Nat),
        s.observers = some obs →
        (deliverError e s).observers = none ∧
        ∀ o ∈ obs, Event.errorSig o e ∈ (deliverError e s).trace)
  ∧ (∀ (fuel : Nat) (h : MainHook) (s s' : SubjectState),
        s.observers = none → drain fuel h s = some s' →
        ∃ tr, s'.trace = s.trace ++ tr ∧ ∀ ev ∈ tr, isExecuted ev = false)
  ∧ ((drain 20 c5Hook (subscribe 0 initialSubject)).map
        (fun s => (s.observers, s.trace))
      = some (none, [Event.executed (.num 0), Event.next 0 (.num 0),
          Event.errorSig 0 .numberOfHookCalls, Event.resolveCompletion])) := by
  refine ⟨?_, ?_, ?_, ?_, ?_, ?_⟩
  · intro s k hma hcell
    simp [getMemoryCell, hcell, hma]
  · intro s k c hcell hk
    have : (c.kind == k) = false := by
      simp only [beq_eq_false_iff_ne, ne_eq]
      exact hk
    simp [getMemoryCell, hcell, this]
  · intro h s obs v s1 hobs hrun hlen
    exact execute_spec_badCount h s obs v s1 hobs hrun hlen
  · intro e s obs hobs
    refine ⟨deliverError_observers e s obs hobs, ?_⟩
    intro o ho
    simp only [deliverError, hobs, cleanUpEffects_spec]
    rw [(resolveCompletion_fields _).2.2]
    have hm : Event.errorSig o e ∈ obs.map (fun o => Event.errorSig o e) :=
      List.mem_map_of_mem _ ho
    exact List.mem_append_left _ (List.mem_append_left _
      (List.mem_append_right _ hm))
  · intro fuel h s s' hobs hdr
    obtain ⟨_, _, tr, htr, hq⟩ := drain_dead fuel h s s' hobs hdr
    refine ⟨tr, htr, ?_⟩
    intro ev hev
    have := hq ev hev
    cases ev <;> simp_all [isQuietEvent, isExecuted]
  · rfl

/-- Witness for C5 at concrete inputs: the count violation past the end,
the order violation on a wrong-kind cell, the count violation of a body
making no hook calls against one allocated cell, the error delivery to
observer 0, and the silence of a dead subject. -/
theorem claim5_shape_violation_witness :
    getMemoryCell .stateK c5BadState = .err .numberOfHookCalls c5BadState ∧
    getMemoryCell .effectK c4MemoState = .err .orderOfHookCalls c4MemoState ∧
    execute (.ret .undef) c5BadState = .err .numberOfHookCalls
      { ({ c5BadState with active := true, memoryPointer := 0 }) with
        active := false } ∧
    ((deliverError (.custom 2) dedupState).observers = none ∧
      ∀ o ∈ [0], Event.errorSig o (.custom 2)
        ∈ (deliverError (.custom 2) dedupState).trace) ∧
    (∃ tr, deadSubject.trace = deadSubject.trace ++ tr ∧
      ∀ ev ∈ tr, isExecuted ev = false) :=
  ⟨claim5_shape_violation.1 c5BadState .stateK rfl rfl,
   claim5_shape_violation.2.1 c4MemoState .effectK (.memoCell (.num 42) [.nan])
     rfl (by decide),
   claim5_shape_violation.2.2.1 (.ret .undef) c5BadState [0] .undef
     { c5BadState with active := true, memoryPointer := 0 } rfl rfl (by decide),
   claim5_shape_violation.2.2.2.1 (.custom 2) dedupState [0] rfl,
   claim5_shape_violation.2.2.2.2.1 3 (.ret .undef) deadSubject deadSubject
     rfl rfl⟩

/-- C6: the two error tiers.  An error thrown by an effect function during
the trigger phase propagates (fatal to the instance), leaving the
previously stored cleanup in place (first conjunct, characterized on a
single-cell memory).  An error thrown by a cleanup function is caught
per-offender: `cleanUpEffects` is a total function that processes every
cell (second conjunct), and a throwing cleanup produces exactly its
invocation plus one console diagnostic while its stored reference is
cleared (third conjunct).  The final conjunct runs both tiers end to end:
the second effect's trigger error is fatal and delivered, while the first
effect's throwing cleanup is only logged. -/
theorem claim6_error_tiers :
    (∀ (s : SubjectState) (eff : EffectFn) (deps : Option (List JSValue))
        (cu : Option CleanUpFn) (e : ErrName),
        s.memory = [.effectCell true eff deps cu] → eff.calls = [] →
        eff.throws = some e →
        triggerEffects s = .err e
          { s with memory := [.effectCell false eff deps cu],
                   trace := s.trace ++ [.effectRun 0] })
  ∧ (∀ (force : Bool) (s : SubjectState),
        cleanUpEffects force s =
          { s with memory := s.memory.map (cleanCell force),
                   trace := s.trace ++ cleanEvents force 0 s.memory })
  ∧ (∀ (i : Nat) (o : Bool) (eff : EffectFn) (deps : Option (List JSValue))
        (ce : ErrName),
        cleanCellEvents true i (.effectCell o eff deps (some ⟨some ce⟩))
          = [.cleanUpRun i, .consoleErr i] ∧
        cleanCell true (.effectCell o eff deps (some ⟨some ce⟩))
          = .effectCell o eff deps none)
  ∧ ((drain 20 c6Hook (subscribe 0 initialSubject)).map (fun s => s.trace)
      = some [Event.executed (.num 0), Event.next 0 (.num 0),
          Event.executed (.num 1), Event.next 0 (.num 1),
          Event.effectRun 1, Event.effectRun 2,
          Event.errorSig 0 (.custom 9),
          Event.cleanUpRun 1, Event.consoleErr 1,
          Event.resolveCompletion]) := by
  refine ⟨?_, cleanUpEffects_spec, ?_, ?_⟩
  · intro s eff deps cu e hmem hcalls hthrows
    simp [triggerEffects, hmem, triggerEffectsFrom, hcalls, hthrows,
      runEffectCalls, SubjectState.emit]
  · intro i o eff deps ce
    constructor
    · simp [cleanCellEvents]
    · simp [cleanCell]
  · rfl

/-- Witness for C6 at concrete inputs: the single-cell throwing effect is
fatal with the stated final state; the forced cleanup of `dedupState`
(whose only cell is a state cell) is a no-op map; a throwing cleanup at
cell 4 produces its two events and is cleared. -/
theorem claim6_error_tiers_witness :
    triggerEffects c6TrigState = .err (.custom 9)
      { c6TrigState with
        memory := [.effectCell false ⟨[], some (.custom 9), none⟩ none none],
        trace := c6TrigState.trace ++ [.effectRun 0] } ∧
    (cleanCellEvents true 4
        (.effectCell false ⟨[], none, none⟩ none (some ⟨some (.custom 7)⟩))
      = [.cleanUpRun 4, .consoleErr 4] ∧
     cleanCell true
        (.effectCell false ⟨[], none, none⟩ none (some ⟨some (.custom 7)⟩))
      = .effectCell false ⟨[], none, none⟩ none none) :=
  ⟨claim6_error_tiers.1 c6TrigState ⟨[], some (.custom 9), none⟩ none none
     (.custom 9) rfl rfl rfl,
   claim6_error_tiers.2.2.1 4 false ⟨[], none, none⟩ none (.custom 7)⟩

/-- C9: result filtering is asymmetric.  The single-consumer runner calls
`onResult` for every produced value except the `undefined` sentinel (first
conjunct); the multicast subject publishes every produced value — also
`undefined` and `null` — to each observer's `next` (second conjunct).  The
remaining conjuncts run both surfaces on hooks returning `undefined` and
`null`. -/
theorem claim9_result_filtering :
    (∀ (h : RunnerHook) (s : RunnerState) (v : JSValue),
        h.outcome = .ret v → h.hookCalls = s.memory.length →
        ∃ s', Runner.execute h s = .ok () s' ∧
          s'.trace = s.trace ++ [Event.executed v] ++
            (if v = .undef then [] else [Event.onResult v]))
  ∧ (∀ (hp : MainHook) (s : SubjectState) (obs : List Nat) (v : JSValue)
        (s1 : SubjectState),
        s.observers = some obs →
        runHook hp { s with active := true, memoryPointer := 0 } = .ok v s1 →
        s1.memoryPointer = s1.memory.length →
        ∃ s', execute hp s = .ok () s' ∧
          s'.trace = s1.trace ++ [Event.executed v] ++
            obs.map (fun o => Event.next o v))
  ∧ ((drain 5 (.ret .undef) (subscribe 0 initialSubject)).map deliveredValues
      = some [JSValue.undef])
  ∧ ((drain 5 (.ret .null) (subscribe 0 initialSubject)).map deliveredValues
      = some [JSValue.null])
  ∧ (runnerResults ((Runner.execute ⟨.ret .undef, 0⟩ initialRunner).st) = [])
  ∧ (runnerResults ((Runner.execute ⟨.ret .null, 0⟩ initialRunner).st)
      = [JSValue.null]) := by
  refine ⟨?_, ?_, rfl, rfl, rfl, rfl⟩
  · intro h s v ho hl
    refine ⟨(Runner.execute h s).st, ?_, ?_⟩
    · by_cases hv : v = JSValue.undef <;>
        simp [Runner.execute, ho, hl, RR.st, hv, RunnerState.emit]
    · by_cases hv : v = JSValue.undef <;>
        simp [Runner.execute, ho, hl, RR.st, hv, RunnerState.emit]
  · intro hp s obs v s1 hobs hrun hlen
    have hfr := runHook_frame hp { s with active := true, memoryPointer := 0 }
    rw [hrun] at hfr
    simp only [ER.st] at hfr
    refine ⟨_, execute_spec_ok hp s obs v s1 hobs hrun hlen, ?_⟩
    have hobs1 : s1.observers = some obs := by
      rw [hfr.1.1]
      exact hobs
    simp [SubjectState.emitAll, hobs1]

/-- Witness for C1 at a concrete input: after the state-change pass of
`dedupState`, its single state cell's queue is empty. -/
theorem claim1_compounding_witness :
    cellQueueEmpty (.stateCell (.num 0) []) = true :=
  claim1_compounding.2 dedupState (.stateCell (.num 0) [])
    (by rw [show ((applyStateChanges dedupState).2).memory
          = [MemoryCell.stateCell (.num 0) []] from rfl]
        exact List.mem_singleton.mpr rfl)

/-- Witness for C9 at concrete inputs: a runner body returning `null`
delivers it through `onResult`; a subject body returning `null` publishes
it to the (empty) observer set with the execution marker. -/
theorem claim9_result_filtering_witness :
    (∃ s', Runner.execute ⟨.ret .null, 0⟩ initialRunner = .ok () s' ∧
      s'.trace = initialRunner.trace ++ [Event.executed .null] ++
        (if JSValue.null = .undef then [] else [Event.onResult .null])) ∧
    (∃ s', execute (.ret .null) initialSubject = .ok () s' ∧
      s'.trace =
        ({ initialSubject with active := true, memoryPointer := 0 }).trace
          ++ [Event.executed .null]
          ++ ([] : List Nat).map (fun o => Event.next o .null)) :=
  ⟨claim9_result_filtering.1 ⟨.ret .null, 0⟩ initialRunner .null rfl rfl,
   claim9_result_filtering.2.1 (.ret .null) initialSubject [] .null
     { initialSubject with active := true, memoryPointer := 0 } rfl rfl rfl⟩

/-- C4 counterexample: on an effect cell already marked outdated, calling
`useEffect` with a dependency list whose every position is
reference-identical to the stored one still re-stores the new effect
closure (the `|| memoryCell.outdated` disjunct) — the cell is *not* left
untouched, refuting the claim's "iff" as stated for such cells.  Before
the call the stored effect throws nothing; after the call the stored
effect is the newly supplied one. -/
theorem claim4_counterexample :
    storedEffectThrows c4OutdatedState 0 = none ∧
    storedEffectThrows
      ((useEffect ⟨[], some (.custom 1), none⟩ (some [JSValue.str "a"])
          c4OutdatedState).st) 0 = some (.custom 1) ∧
    areHookInputsEqual (some [JSValue.str "a"]) (some [JSValue.str "a"])
      = true :=
  ⟨rfl, rfl, by decide⟩

end Ironhook
